import Mathlib

/-!
# Celestia overlay: UTF-8 stream decoder and text cursor

A shallow embedding of `src/celengine/overlay.cpp`:

* `OverlayStreamBuf.overflow`, the incremental UTF-8 decoder behind the
  overlay's output stream;
* `Overlay.beginText`, `Overlay.endText`, the `Overlay.print` overloads and
  `Overlay.setFont`, the text cursor;
* `Overlay.begin` and `Overlay.drawRectangle`, as far as they act on the
  texture flags and the modelview stack.

Conventions.

* `unsigned int` and `wchar_t` are 32 bits wide; values are kept as `Nat` and
  every assignment is reduced modulo `2 ^ 32`.
* The argument of `overflow` is the non-negative `int` the stream hands over
  (`0 .. 255` for a byte); the negative value `EOF` is outside the model.
* Pointers are `Option`s (`none` is `nullptr`); the stream buffer keeps only
  whether its `overlay` pointer is set.
* `float` values live in an arbitrary type `R` with `0`, `1`, `+` and unary
  `-`; no law of arithmetic is assumed of it.
* OpenGL and the font are external: their calls are appended to a log, and the
  modelview stack and bound texture are tracked ideally (no stack limit).
-/

namespace Celestia

/-! ## Incremental decoder -/

/-- Decoder phase, `OverlayStreamBuf::UTF8DecodeState`. -/
inductive UTF8DecodeState where
  | UTF8DecodeStart
  | UTF8DecodeMultibyte
  deriving DecidableEq, Repr

/-- One call made by `overflow` on its overlay: `print((char) c)` or
`print(decodedChar)` (the `wchar_t` overload). -/
inductive PrintCall where
  | char (c : Nat)
  | wchar (c : Nat)
  deriving DecidableEq, Repr

/-- The character value passed in a call of `Overlay::print`. -/
def PrintCall.arg : PrintCall → Nat
  | .char c => c
  | .wchar c => c

/-- Fields of `OverlayStreamBuf`; `overlay` is `true` when the pointer is not
`nullptr`. -/
structure OverlayStreamBuf where
  overlay : Bool
  decodeState : UTF8DecodeState
  decodedChar : Nat
  decodeShift : Nat
  deriving DecidableEq, Repr

/-- Range of the 32-bit fields `decodedChar` and `decodeShift`. -/
def OverlayStreamBuf.InRange (sb : OverlayStreamBuf) : Prop :=
  sb.decodedChar < 2 ^ 32 ∧ sb.decodeShift < 2 ^ 32

instance (sb : OverlayStreamBuf) : Decidable sb.InRange := by
  unfold OverlayStreamBuf.InRange; infer_instance

/-- `OverlayStreamBuf::overflow(int c)`: the new buffer state and the calls of
`overlay->print` made, in order. -/
def OverlayStreamBuf.overflow (sb : OverlayStreamBuf) (c : Nat) :
    OverlayStreamBuf × List PrintCall :=
  if sb.overlay then
    match sb.decodeState with
    | .UTF8DecodeStart =>
      if c < 0x80 then
        -- Just a normal 7-bit character
        (sb, [PrintCall.char c])
      else
        let count : Nat :=
          if c &&& 0xe0 = 0xc0 then 2
          else if c &&& 0xf0 = 0xe0 then 3
          else if c &&& 0xf8 = 0xf0 then 4
          else if c &&& 0xfc = 0xf8 then 5
          else if c &&& 0xfe = 0xfc then 6
          else 1
        if count > 1 then
          let mask : Nat := (1 <<< (7 - count)) - 1
          let shift : Nat := ((count - 1) * 6) % 2 ^ 32
          ({ sb with
              decodeShift := shift
              decodedChar := ((c &&& mask) <<< shift) % 2 ^ 32
              decodeState := .UTF8DecodeMultibyte }, [])
        else
          (sb, [])
    | .UTF8DecodeMultibyte =>
      if c &&& 0xc0 = 0x80 then
        let shift : Nat := (sb.decodeShift + 2 ^ 32 - 6) % 2 ^ 32
        let ch : Nat := (sb.decodedChar ||| ((c &&& 0x3f) <<< shift)) % 2 ^ 32
        if shift = 0 then
          ({ sb with decodeShift := shift, decodedChar := ch,
                     decodeState := .UTF8DecodeStart }, [PrintCall.wchar ch])
        else
          ({ sb with decodeShift := shift, decodedChar := ch }, [])
      else
        ({ sb with decodeState := .UTF8DecodeStart }, [])
  else
    (sb, [])

/-- Bytes written to the stream one after the other: `overflow` on each, the
calls of `overlay->print` collected in order. -/
def OverlayStreamBuf.feed (sb : OverlayStreamBuf) : List Nat → OverlayStreamBuf × List PrintCall
  | [] => (sb, [])
  | c :: cs =>
    let r := sb.overflow c
    let r2 := OverlayStreamBuf.feed r.1 cs
    (r2.1, r.2 ++ r2.2)

/-- Standard UTF-8 encoding of a code point up to `0x10FFFF` (one to four
bytes), as the claims name it. -/
def utf8Encode (c : Nat) : List Nat :=
  if c < 0x80 then [c]
  else if c < 0x800 then [0xC0 + c / 64, 0x80 + c % 64]
  else if c < 0x10000 then [0xE0 + c / 4096, 0x80 + c / 64 % 64, 0x80 + c % 64]
  else [0xF0 + c / 262144, 0x80 + c / 4096 % 64, 0x80 + c / 64 % 64, 0x80 + c % 64]

/-- Standard UTF-8 encoding of a list of code points. -/
def utf8EncodeAll : List Nat → List Nat
  | [] => []
  | c :: cs => utf8Encode c ++ utf8EncodeAll cs

/-- Start state of the decoder with an overlay attached. -/
def OverlayStreamBuf.start : OverlayStreamBuf :=
  { overlay := true, decodeState := .UTF8DecodeStart, decodedChar := 0, decodeShift := 0 }

/-! ## Graphics context and font (external collaborators) -/

/-- Identity of a `TextureFont` object; `Option FontId` is a `TextureFont*`. -/
abbrev FontId := Nat

/-- Modelled from the spec: the font class (celtxf/texturefont.h,
celttf/truetypefont.h) is not in src; section 6 gives its metrics as
`getAdvance(codepoint) -> float` and `getHeight() -> float`. -/
structure FontMetrics (R : Type) where
  getHeight : FontId → R
  getAdvance : FontId → Nat → R

/-- A modelview matrix, kept as the translations applied to it since it was
loaded, newest first. -/
abbrev Transform (R : Type) := List (R × R × R)

/-- Calls that reach OpenGL or the font. -/
inductive GLCall (R : Type) where
  | glPushMatrix
  | glPopMatrix
  | glTranslatef (x y z : R)
  | bind (f : FontId)
  | unbind (f : FontId)
  | render (f : FontId) (c : Nat) (x y : R)
  | glLoadIdentity
  | glBindTexture0
  | drawRectangle (textured : Bool)
  deriving DecidableEq, Repr

/-- The part of the graphics context the text cursor acts on: the modelview
stack (`current` on top of `saved`), the bound texture (`none` is texture 0),
and the log of calls made so far, oldest first. -/
structure GLState (R : Type) where
  current : Transform R
  saved : List (Transform R)
  texture : Option FontId
  calls : List (GLCall R)
  deriving DecidableEq, Repr

namespace GLState

variable {R : Type}

/-- Number of matrices on the modelview stack. -/
def depth (g : GLState R) : Nat := g.saved.length + 1

/-- The call `glPushMatrix()`: the current matrix is duplicated. -/
def glPushMatrix (g : GLState R) : GLState R :=
  { g with saved := g.current :: g.saved, calls := g.calls ++ [GLCall.glPushMatrix] }

/-- The call `glPopMatrix()`: the top matrix is dropped; on a stack of one
matrix OpenGL flags an error and changes nothing. -/
def glPopMatrix (g : GLState R) : GLState R :=
  match g.saved with
  | [] => { g with calls := g.calls ++ [GLCall.glPopMatrix] }
  | m :: ms => { g with current := m, saved := ms, calls := g.calls ++ [GLCall.glPopMatrix] }

/-- The call `glTranslatef(x, y, z)` on the current matrix. -/
def glTranslatef (g : GLState R) (x y z : R) : GLState R :=
  { g with current := (x, y, z) :: g.current, calls := g.calls ++ [GLCall.glTranslatef x y z] }

/-- The call `font->bind()`: the font's texture becomes the bound texture. -/
def bind (g : GLState R) (f : FontId) : GLState R :=
  { g with texture := some f, calls := g.calls ++ [GLCall.bind f] }

/-- The call `font->unbind()`: no texture is bound afterwards. -/
def unbind (g : GLState R) (f : FontId) : GLState R :=
  { g with texture := none, calls := g.calls ++ [GLCall.unbind f] }

/-- The call `font->render(c, xoffset, yoffset)`. -/
def render (g : GLState R) (f : FontId) (c : Nat) (x y : R) : GLState R :=
  { g with calls := g.calls ++ [GLCall.render f c x y] }

/-- The call `glLoadIdentity()` on the current matrix. -/
def glLoadIdentity (g : GLState R) : GLState R :=
  { g with current := [], calls := g.calls ++ [GLCall.glLoadIdentity] }

/-- The call `glBindTexture(GL_TEXTURE_2D, 0)`: no texture is bound
afterwards. -/
def glBindTexture0 (g : GLState R) : GLState R :=
  { g with texture := none, calls := g.calls ++ [GLCall.glBindTexture0] }

/-- The call `renderer.drawRectangle(r)`; only the call is recorded, what the
renderer does with a textured rectangle is outside the model. -/
def drawRectangle (g : GLState R) (textured : Bool) : GLState R :=
  { g with calls := g.calls ++ [GLCall.drawRectangle textured] }

end GLState

/-- Whether a logged call is a matrix operation or a glyph render. -/
def GLCall.isMatrixOrRender {R : Type} : GLCall R → Bool
  | .glPushMatrix => true
  | .glPopMatrix => true
  | .glTranslatef _ _ _ => true
  | .render _ _ _ _ => true
  | .bind _ => false
  | .unbind _ => false
  | .glLoadIdentity => true
  | .glBindTexture0 => false
  | .drawRectangle _ => false

/-- The code points of the glyph renders in a log, in order. -/
def renderedChars {R : Type} : List (GLCall R) → List Nat
  | [] => []
  | .render _ c _ _ :: cs => c :: renderedChars cs
  | _ :: cs => renderedChars cs

/-! ## Text cursor -/

/-- Modelled from the spec: the fields of `Overlay` are declared in overlay.h,
not in src; section 3 gives `textBlock` as a non-negative integer and the
offsets as floats. `gl` is the graphics context the overlay draws into. -/
structure Overlay (R : Type) where
  font : Option FontId
  useTexture : Bool
  fontChanged : Bool
  textBlock : Nat
  xoffset : R
  yoffset : R
  gl : GLState R
  deriving DecidableEq, Repr

namespace Overlay

variable {R : Type} [Zero R] [One R] [Add R] [Neg R]

/-- `Overlay::setFont(TextureFont* f)`. -/
def setFont (ov : Overlay R) (f : Option FontId) : Overlay R :=
  if f ≠ ov.font then
    { ov with font := f, fontChanged := true }
  else ov

/-- `Overlay::beginText()`. -/
def beginText (ov : Overlay R) : Overlay R :=
  let ov1 := { ov with gl := ov.gl.glPushMatrix }
  let ov2 := { ov1 with textBlock := ov1.textBlock + 1 }
  match ov2.font with
  | some f => { ov2 with gl := ov2.gl.bind f, useTexture := true, fontChanged := false }
  | none => ov2

/-- `Overlay::endText()`; `none` when `font->unbind()` is called through a
null `font`. -/
def endText (ov : Overlay R) : Option (Overlay R) :=
  let ov1 :=
    if ov.textBlock > 0 then
      { ov with textBlock := ov.textBlock - 1, xoffset := 0, gl := ov.gl.glPopMatrix }
    else ov
  match ov1.font with
  | some f => some { ov1 with gl := ov1.gl.unbind f }
  | none => none

/-- `Overlay::print(wchar_t c)`. -/
def print_wchar (F : FontMetrics R) (ov : Overlay R) (c : Nat) : Overlay R :=
  match ov.font with
  | none => ov
  | some f =>
    let ov1 :=
      if !ov.useTexture || ov.fontChanged then
        { ov with gl := ov.gl.bind f, useTexture := true, fontChanged := false }
      else ov
    if c = 10 then
      if ov1.textBlock > 0 then
        let g1 := ov1.gl.glPopMatrix
        let g2 := g1.glTranslatef 0 (-(1 + F.getHeight f)) 0
        { ov1 with xoffset := 0, gl := g2.glPushMatrix }
      else ov1
    else
      let g1 := ov1.gl.render f c ov1.xoffset ov1.yoffset
      { ov1 with gl := g1, xoffset := ov1.xoffset + F.getAdvance f c }

/-- `Overlay::print(char c)`, for `c` in `0 .. 127`. -/
def print_char (F : FontMetrics R) (ov : Overlay R) (c : Nat) : Overlay R :=
  match ov.font with
  | none => ov
  | some f =>
    let ov1 :=
      if !ov.useTexture || ov.fontChanged then
        { ov with gl := ov.gl.bind f, useTexture := true, fontChanged := false }
      else ov
    if c = 10 then
      if ov1.textBlock > 0 then
        let g1 := ov1.gl.glPopMatrix
        let g2 := g1.glTranslatef 0 (-(1 + F.getHeight f)) 0
        { ov1 with xoffset := 0, gl := g2.glPushMatrix }
      else ov1
    else
      let g1 := ov1.gl.render f c ov1.xoffset ov1.yoffset
      { ov1 with gl := g1, xoffset := ov1.xoffset + F.getAdvance f c }

end Overlay

/-- Modelled from the spec: `UTF8EncodedSize` (celutil/utf8.h) is not in src;
it is the number of bytes of the UTF-8 encoding of `ch`, with the sequence
lengths 1 to 6 of section 4.1. -/
def UTF8EncodedSize (ch : Nat) : Nat :=
  if ch < 0x80 then 1
  else if ch < 0x800 then 2
  else if ch < 0x10000 then 3
  else if ch < 0x200000 then 4
  else if ch < 0x4000000 then 5
  else 6

/-- Modelled from the spec: `UTF8Decode(s, pos, length, ch)` (celutil/utf8.h)
is not in src; section 4.2 calls it a batch single-character UTF-8 decode
helper for a complete buffer, sharing the lead-byte classification of section
4.1. It returns whether a character was decoded at `pos`, and the value of
`ch` afterwards (unchanged when nothing was decoded). -/
def UTF8Decode (s : List Nat) (pos length : Nat) (ch : Nat) : Bool × Nat :=
  match s.drop pos with
  | [] => (false, ch)
  | c0 :: rest =>
    if c0 < 0x80 then (true, c0)
    else
      let count : Nat :=
        if c0 &&& 0xe0 = 0xc0 then 2
        else if c0 &&& 0xf0 = 0xe0 then 3
        else if c0 &&& 0xf8 = 0xf0 then 4
        else if c0 &&& 0xfc = 0xf8 then 5
        else if c0 &&& 0xfe = 0xfc then 6
        else 1
      let tail := rest.take (count - 1)
      if 1 < count ∧ pos + count ≤ length ∧ tail.length = count - 1
          ∧ tail.all (fun b => b &&& 0xc0 = 0x80) then
        (true, tail.foldl (fun acc b => (acc <<< 6) ||| (b &&& 0x3f))
                 (c0 &&& ((1 <<< (7 - count)) - 1)))
      else (false, ch)

namespace Overlay

variable {R : Type} [Zero R] [One R] [Add R] [Neg R]

/-- The loop of `Overlay::print(const char* s)` from index `i` on, run for at
most `fuel` iterations; `none` when the fuel runs out first. -/
def printLoop (decode : List Nat → Nat → Nat → Nat → Bool × Nat) (F : FontMetrics R)
    (s : List Nat) (length : Nat) : Nat → Nat → Bool → Overlay R → Option (Overlay R)
  | 0, i, validChar, ov => if i < length ∧ validChar = true then none else some ov
  | fuel + 1, i, validChar, ov =>
    if i < length ∧ validChar = true then
      let r := decode s i length 0
      printLoop decode F s length fuel (i + UTF8EncodedSize r.2) r.1 (ov.print_wchar F r.2)
    else some ov

/-- `Overlay::print(const char* s)`, `s` being the bytes before the
terminating NUL. Every iteration moves `i` forward by at least one, so
`strlen(s)` iterations are enough. -/
def print_str (F : FontMetrics R) (ov : Overlay R) (s : List Nat) : Option (Overlay R) :=
  printLoop UTF8Decode F s s.length s.length 0 true ov

/-- One call of `overlay->print` made by the stream buffer, routed to the
overload it names. -/
def dispatch (F : FontMetrics R) (ov : Overlay R) : PrintCall → Overlay R
  | .char c => ov.print_char F c
  | .wchar c => ov.print_wchar F c

end Overlay

/-- Font metrics used in the examples: every glyph is 7 wide, lines are 10
high. -/
def demoMetrics : FontMetrics Int := { getHeight := fun _ => 10, getAdvance := fun _ _ => 7 }

/-- A cursor state with font 1 set, outside any text block. -/
def demoOverlay : Overlay Int :=
  { font := some 1, useTexture := false, fontChanged := false, textBlock := 0,
    xoffset := 3, yoffset := 5,
    gl := { current := [], saved := [], texture := none, calls := [] } }

namespace Overlay

variable {R : Type} [Zero R] [One R] [Add R] [Neg R]

/-- `Overlay::begin()`, on the modelled part of the context: the modelview
matrix is pushed, loaded with the identity and translated, and `useTexture` is
cleared. `eighth` is the float `0.125f`; the projection stack and blending are
outside the model. -/
def begin (ov : Overlay R) (eighth : R) : Overlay R :=
  let g1 := ov.gl.glPushMatrix
  let g2 := g1.glLoadIdentity
  let g3 := g2.glTranslatef eighth eighth 0
  { ov with gl := g3, useTexture := false }

/-- `Overlay::drawRectangle(const Rect& r)`; `rtex` is `r.tex`. -/
def drawRectangle (ov : Overlay R) (rtex : Option Nat) : Overlay R :=
  let ov1 :=
    if ov.useTexture && rtex.isNone then
      { ov with gl := ov.gl.glBindTexture0, useTexture := false }
    else ov
  { ov1 with gl := ov1.gl.drawRectangle rtex.isSome }

end Overlay

/-- One call on the text cursor: `beginText()`, `endText()`, a
single-character `print` (either overload) or `setFont` with a non-null
font. -/
inductive CursorOp where
  | beginText
  | endText
  | printChar (c : Nat)
  | printWChar (c : Nat)
  | setFont (f : FontId)
  deriving DecidableEq, Repr

namespace Overlay

variable {R : Type} [Zero R] [One R] [Add R] [Neg R]

/-- One cursor call; `none` when the call fails. -/
def step (F : FontMetrics R) (ov : Overlay R) : CursorOp → Option (Overlay R)
  | .beginText => some ov.beginText
  | .endText => ov.endText
  | .printChar c => some (ov.print_char F c)
  | .printWChar c => some (ov.print_wchar F c)
  | .setFont f => some (ov.setFont (some f))

/-- A sequence of cursor calls, made one after the other; `none` as soon as
one of them fails. -/
def run (F : FontMetrics R) (ov : Overlay R) : List CursorOp → Option (Overlay R)
  | [] => some ov
  | op :: ops =>
    match ov.step F op with
    | some ov1 => run F ov1 ops
    | none => none

end Overlay

/-- The texture flags agree with the context: when `useTexture` is set and
`fontChanged` is clear, the bound texture is the active font's. -/
def FlagsTrackBinding {R : Type} (ov : Overlay R) : Prop :=
  ov.useTexture = true → ov.fontChanged = false → ov.font.isSome ∧ ov.gl.texture = ov.font

/-! ## Words of the claims -/

/-- A byte of the form `10xxxxxx`. -/
def isContinuation (b : Nat) : Prop := b / 64 = 2

instance (b : Nat) : Decidable (isContinuation b) := by
  unfold isContinuation; infer_instance

/-- A lead byte whose high bits select a sequence of `n` bytes: `n` ones and
then a zero (`110xxxxx` for 2, up to `1111110x` for 6). -/
def leadOfLength (n L : Nat) : Prop := L / 2 ^ (7 - n) = 2 ^ (n + 1) - 2

instance (n L : Nat) : Decidable (leadOfLength n L) := by
  unfold leadOfLength; infer_instance

/-- The code point the claims give for the sequence `L, b1, .., b(n-1)`:
`((L & (2^(7-n) - 1)) << 6(n-1)) | OR over i of ((bi & 0x3F) << 6(n-1-i))`;
`bs.getD i 0` is `b(i+1)`. -/
def seqValue (n L : Nat) (bs : List Nat) : Nat :=
  (List.range (n - 1)).foldl
    (fun acc i => acc ||| ((bs.getD i 0 &&& 0x3F) <<< (6 * (n - 2 - i))))
    ((L &&& (2 ^ (7 - n) - 1)) <<< (6 * (n - 1)))

/-- The accumulator after the continuation bytes `bs`, when `m` more are
still to come after them. -/
def contOr (m : Nat) : Nat → List Nat → Nat
  | acc, [] => acc
  | acc, b :: bs => contOr m (acc ||| ((b &&& 0x3f) <<< (6 * (bs.length + m)))) bs

/-- The sequence length `overflow` reads off a byte that is not below `0x80`
(1 for an invalid lead byte). -/
def leadCount (c : Nat) : Nat :=
  if c &&& 0xe0 = 0xc0 then 2
  else if c &&& 0xf0 = 0xe0 then 3
  else if c &&& 0xf8 = 0xf0 then 4
  else if c &&& 0xfc = 0xf8 then 5
  else if c &&& 0xfe = 0xfc then 6
  else 1

/-- The call `overflow` makes for a code point `c` of a valid sequence. -/
def callOf (c : Nat) : PrintCall := if c < 0x80 then .char c else .wchar c

/-- While a sequence is being assembled `decodeShift` is one of 6, 12, 18, 24
and 30. -/
def MidSequenceInv (sb : OverlayStreamBuf) : Prop :=
  sb.decodeState = .UTF8DecodeMultibyte →
    sb.decodeShift % 6 = 0 ∧ 6 ≤ sb.decodeShift ∧ sb.decodeShift ≤ 30

/-- The arithmetic of a sequence being assembled stays inside a 32-bit word:
the shift is between 6 and 30, and the accumulator is below `2 ^ 31` with its
low `decodeShift` bits clear. -/
def ArithInv (sb : OverlayStreamBuf) : Prop :=
  sb.decodeState = .UTF8DecodeMultibyte →
    6 ≤ sb.decodeShift ∧ sb.decodeShift ≤ 30 ∧ sb.decodeShift % 6 = 0 ∧
    sb.decodedChar % 2 ^ sb.decodeShift = 0 ∧ sb.decodedChar < 2 ^ 31

/-- Two decoder states that `overflow` cannot tell apart: same overlay
pointer, same decode state, and the same accumulator fields when a sequence is
being assembled. -/
def SameBehaviour (s1 s2 : OverlayStreamBuf) : Prop :=
  s1.overlay = s2.overlay ∧ s1.decodeState = s2.decodeState ∧
    (s1.decodeState = .UTF8DecodeMultibyte → s1 = s2)

/-! ## Decoder: single steps -/

open UTF8DecodeState

section decoderLemmas

set_option maxRecDepth 100000

theorem isContinuation_iff : ∀ b, b < 256 → (b / 64 = 2 ↔ b &&& 0xc0 = 0x80) := by
  decide

theorem isContinuation_and {b : Nat} (h : isContinuation b) : b &&& 0xc0 = 0x80 := by
  unfold isContinuation at h
  have hb : b < 256 := by omega
  exact (isContinuation_iff b hb).1 h

theorem leadCount_lt_256 : ∀ c, c < 256 →
    (leadCount c = 2 ↔ c / 32 = 6) ∧ (leadCount c = 3 ↔ c / 16 = 14) ∧
    (leadCount c = 4 ↔ c / 8 = 30) ∧ (leadCount c = 5 ↔ c / 4 = 62) ∧
    (leadCount c = 6 ↔ c / 2 = 126) ∧
    (leadCount c = 1 ↔ (c < 0xC0 ∨ 0xFE ≤ c)) := by
  decide

theorem leadCount_range (c : Nat) : 1 ≤ leadCount c ∧ leadCount c ≤ 6 := by
  unfold leadCount
  split_ifs <;> omega

theorem overflow_no_overlay (sb : OverlayStreamBuf) (c : Nat) (h : sb.overlay = false) :
    sb.overflow c = (sb, []) := by
  simp [OverlayStreamBuf.overflow, h]

theorem overflow_ascii (sb : OverlayStreamBuf) (c : Nat) (hov : sb.overlay = true)
    (hst : sb.decodeState = UTF8DecodeStart) (hc : c < 0x80) :
    sb.overflow c = (sb, [PrintCall.char c]) := by
  simp [OverlayStreamBuf.overflow, hov, hst, hc]

theorem overflow_start_high (sb : OverlayStreamBuf) (c : Nat) (hov : sb.overlay = true)
    (hst : sb.decodeState = UTF8DecodeStart) (hc : ¬ c < 0x80) :
    sb.overflow c =
      if leadCount c > 1 then
        ({ sb with
            decodeShift := ((leadCount c - 1) * 6) % 2 ^ 32
            decodedChar := ((c &&& ((1 <<< (7 - leadCount c)) - 1))
                              <<< (((leadCount c - 1) * 6) % 2 ^ 32)) % 2 ^ 32
            decodeState := UTF8DecodeMultibyte }, [])
      else (sb, []) := by
  simp only [OverlayStreamBuf.overflow, hov, hst, hc, leadCount, if_true, if_false]

theorem overflow_multibyte_bad (sb : OverlayStreamBuf) (c : Nat) (hov : sb.overlay = true)
    (hst : sb.decodeState = UTF8DecodeMultibyte) (hc : ¬ c &&& 0xc0 = 0x80) :
    sb.overflow c = ({ sb with decodeState := UTF8DecodeStart }, []) := by
  simp [OverlayStreamBuf.overflow, hov, hst, hc]

theorem overflow_multibyte_cont (sb : OverlayStreamBuf) (c : Nat) (hov : sb.overlay = true)
    (hst : sb.decodeState = UTF8DecodeMultibyte) (hc : c &&& 0xc0 = 0x80) :
    sb.overflow c =
      if (sb.decodeShift + 2 ^ 32 - 6) % 2 ^ 32 = 0 then
        ({ sb with
            decodeShift := (sb.decodeShift + 2 ^ 32 - 6) % 2 ^ 32
            decodedChar := (sb.decodedChar |||
              ((c &&& 0x3f) <<< ((sb.decodeShift + 2 ^ 32 - 6) % 2 ^ 32))) % 2 ^ 32
            decodeState := UTF8DecodeStart },
         [PrintCall.wchar ((sb.decodedChar |||
              ((c &&& 0x3f) <<< ((sb.decodeShift + 2 ^ 32 - 6) % 2 ^ 32))) % 2 ^ 32)])
      else
        ({ sb with
            decodeShift := (sb.decodeShift + 2 ^ 32 - 6) % 2 ^ 32
            decodedChar := (sb.decodedChar |||
              ((c &&& 0x3f) <<< ((sb.decodeShift + 2 ^ 32 - 6) % 2 ^ 32))) % 2 ^ 32 }, []) := by
  simp only [OverlayStreamBuf.overflow, hov, hst, hc, if_true]

theorem feed_nil (sb : OverlayStreamBuf) : sb.feed [] = (sb, []) := rfl

theorem feed_cons (sb : OverlayStreamBuf) (c : Nat) (cs : List Nat) :
    sb.feed (c :: cs) = (((sb.overflow c).1.feed cs).1, (sb.overflow c).2 ++ ((sb.overflow c).1.feed cs).2) :=
  rfl

theorem feed_append (sb : OverlayStreamBuf) (xs ys : List Nat) :
    sb.feed (xs ++ ys) = (((sb.feed xs).1.feed ys).1, (sb.feed xs).2 ++ ((sb.feed xs).1.feed ys).2) := by
  induction xs generalizing sb with
  | nil => simp [feed_nil]
  | cons x xs ih => simp [feed_cons, ih, List.append_assoc]

theorem payload_lt (b k : Nat) (hk : k ≤ 4) : (b &&& 0x3f) <<< (6 * k) < 2 ^ 32 := by
  have h1 : b &&& 0x3f ≤ 0x3f := Nat.and_le_right
  have h2 : 2 ^ (6 * k) ≤ 2 ^ 24 := Nat.pow_le_pow_right (by decide) (by omega)
  rw [Nat.shiftLeft_eq]
  calc (b &&& 0x3f) * 2 ^ (6 * k) ≤ 0x3f * 2 ^ 24 := Nat.mul_le_mul h1 h2
    _ < 2 ^ 32 := by norm_num

theorem contOr_lt (m : Nat) (bs : List Nat) (acc : Nat) (hacc : acc < 2 ^ 32)
    (hlen : bs.length + m ≤ 5) : contOr m acc bs < 2 ^ 32 := by
  induction bs generalizing acc with
  | nil => simpa [contOr] using hacc
  | cons b bs ih =>
    simp only [contOr]
    simp only [List.length_cons] at hlen
    exact ih _ (Nat.or_lt_two_pow hacc (payload_lt b _ (by omega))) (by omega)

/-- Continuation bytes fed in the middle of a sequence: with `m` bytes still
missing afterwards nothing is printed, and with none missing the accumulated
character is printed once. -/
theorem feed_continuations (m : Nat) (bs : List Nat) (sb : OverlayStreamBuf)
    (hov : sb.overlay = true) (hst : sb.decodeState = UTF8DecodeMultibyte)
    (hsh : sb.decodeShift = 6 * (bs.length + m)) (hlen : bs.length + m ≤ 5)
    (hne : 0 < bs.length + m) (hacc : sb.decodedChar < 2 ^ 32)
    (hbs : ∀ b ∈ bs, b &&& 0xc0 = 0x80) :
    sb.feed bs =
      if m = 0 then
        ({ sb with decodeShift := 0, decodedChar := contOr m sb.decodedChar bs,
                   decodeState := UTF8DecodeStart },
         [PrintCall.wchar (contOr m sb.decodedChar bs)])
      else
        ({ sb with decodeShift := 6 * m, decodedChar := contOr m sb.decodedChar bs }, []) := by
  induction bs generalizing sb with
  | nil =>
    have hm : m ≠ 0 := by simp at hne; omega
    simp only [List.length_nil, Nat.zero_add] at hsh
    cases sb
    simp_all [feed_nil, contOr]
  | cons b bs ih =>
    simp only [List.length_cons] at hsh hlen
    have hb : b &&& 0xc0 = 0x80 := hbs b (by simp)
    have hshift : (sb.decodeShift + 2 ^ 32 - 6) % 2 ^ 32 = 6 * (bs.length + m) := by
      rw [hsh]; omega
    have hval : (sb.decodedChar ||| ((b &&& 0x3f) <<< (6 * (bs.length + m)))) % 2 ^ 32
        = sb.decodedChar ||| ((b &&& 0x3f) <<< (6 * (bs.length + m))) :=
      Nat.mod_eq_of_lt (Nat.or_lt_two_pow hacc (payload_lt b _ (by omega)))
    rw [feed_cons, overflow_multibyte_cont sb b hov hst hb, hshift, hval]
    by_cases hz : bs.length + m = 0
    · have hbs0 : bs = [] := List.length_eq_zero.mp (by omega)
      have hm0 : m = 0 := by omega
      subst hbs0; subst hm0
      simp [feed_nil, contOr]
    · have hnz : ¬ 6 * (bs.length + m) = 0 := by omega
      simp only [hnz, if_false]
      have := ih { sb with
          decodeShift := 6 * (bs.length + m)
          decodedChar := sb.decodedChar ||| ((b &&& 0x3f) <<< (6 * (bs.length + m))) }
        hov hst rfl (by omega) (by omega)
        (Nat.or_lt_two_pow hacc (payload_lt b _ (by omega)))
        (fun x hx => hbs x (List.mem_cons_of_mem _ hx))
      rw [this]
      by_cases hm0 : m = 0 <;> simp [hm0, contOr]

end decoderLemmas

theorem overflow_midSequenceInv (sb : OverlayStreamBuf) (c : Nat) (h : MidSequenceInv sb) :
    MidSequenceInv (sb.overflow c).1 := by
  cases hov : sb.overlay with
  | false => rw [overflow_no_overlay sb c hov]; exact h
  | true =>
    cases hst : sb.decodeState with
    | UTF8DecodeStart =>
      by_cases hc : c < 0x80
      · rw [overflow_ascii sb c hov hst hc]; exact h
      · rw [overflow_start_high sb c hov hst hc]
        have hr := leadCount_range c
        have hmod : (leadCount c - 1) * 6 % 2 ^ 32 = (leadCount c - 1) * 6 :=
          Nat.mod_eq_of_lt (by omega)
        rw [hmod]
        split_ifs with h1
        · intro _
          simp only
          omega
        · exact h
    | UTF8DecodeMultibyte =>
      have h6 := h hst
      have hsub : (sb.decodeShift + 2 ^ 32 - 6) % 2 ^ 32 = sb.decodeShift - 6 := by omega
      by_cases hc : c &&& 0xc0 = 0x80
      · rw [overflow_multibyte_cont sb c hov hst hc, hsub]
        split_ifs with h1
        · intro hcontra
          simp at hcontra
        · intro _
          simp only
          omega
      · rw [overflow_multibyte_bad sb c hov hst hc]
        intro hcontra
        simp at hcontra

theorem feed_midSequenceInv (bytes : List Nat) (sb : OverlayStreamBuf) (h : MidSequenceInv sb) :
    MidSequenceInv (sb.feed bytes).1 := by
  induction bytes generalizing sb with
  | nil => simpa [feed_nil] using h
  | cons c cs ih =>
    rw [feed_cons]
    exact ih _ (overflow_midSequenceInv sb c h)

theorem lead_facts (n L : Nat) (hn2 : 2 ≤ n) (hn6 : n ≤ 6) (hL : leadOfLength n L) :
    ¬ L < 0x80 ∧ leadCount L = n ∧ (L &&& (2 ^ (7 - n) - 1)) <<< (6 * (n - 1)) < 2 ^ 32 := by
  unfold leadOfLength at hL
  have hmask : L &&& (2 ^ (7 - n) - 1) ≤ 2 ^ (7 - n) - 1 := Nat.and_le_right
  rw [Nat.shiftLeft_eq]
  interval_cases n <;> norm_num at hL hmask ⊢
  · have h256 : L < 256 := by omega
    exact ⟨by omega, (leadCount_lt_256 L h256).1.2 hL, by omega⟩
  · have h256 : L < 256 := by omega
    exact ⟨by omega, (leadCount_lt_256 L h256).2.1.2 hL, by omega⟩
  · have h256 : L < 256 := by omega
    exact ⟨by omega, (leadCount_lt_256 L h256).2.2.1.2 hL, by omega⟩
  · have h256 : L < 256 := by omega
    exact ⟨by omega, (leadCount_lt_256 L h256).2.2.2.1.2 hL, by omega⟩
  · have h256 : L < 256 := by omega
    exact ⟨by omega, (leadCount_lt_256 L h256).2.2.2.2.1.2 hL, by omega⟩

theorem seqValue_eq_contOr (n L : Nat) (bs : List Nat) (hn2 : 2 ≤ n) (hn6 : n ≤ 6)
    (hlen : bs.length = n - 1) :
    seqValue n L bs = contOr 0 ((L &&& (2 ^ (7 - n) - 1)) <<< (6 * (n - 1))) bs := by
  interval_cases n
  · match bs, hlen with
    | [b1], _ => rfl
  · match bs, hlen with
    | [b1, b2], _ => rfl
  · match bs, hlen with
    | [b1, b2, b3], _ => rfl
  · match bs, hlen with
    | [b1, b2, b3, b4], _ => rfl
  · match bs, hlen with
    | [b1, b2, b3, b4, b5], _ => rfl

/-- The step `overflow` takes on the lead byte of an `n`-byte sequence. -/
theorem overflow_lead (sb : OverlayStreamBuf) (n L : Nat) (hov : sb.overlay = true)
    (hst : sb.decodeState = UTF8DecodeStart) (hn2 : 2 ≤ n) (hn6 : n ≤ 6)
    (hL : leadOfLength n L) :
    sb.overflow L =
      ({ sb with
          decodeShift := 6 * (n - 1)
          decodedChar := (L &&& (2 ^ (7 - n) - 1)) <<< (6 * (n - 1))
          decodeState := UTF8DecodeMultibyte }, []) := by
  obtain ⟨h80, hcount, hlt⟩ := lead_facts n L hn2 hn6 hL
  rw [overflow_start_high sb L hov hst h80, hcount]
  have h1 : n > 1 := by omega
  have hmod : (n - 1) * 6 % 2 ^ 32 = 6 * (n - 1) := by omega
  have hmask : (1 <<< (7 - n)) - 1 = 2 ^ (7 - n) - 1 := by
    rw [Nat.shiftLeft_eq, Nat.one_mul]
  simp only [h1, if_true, hmod, hmask, Nat.mod_eq_of_lt hlt]

theorem feed_sequence (sb : OverlayStreamBuf) (n L : Nat) (bs : List Nat)
    (hov : sb.overlay = true) (hst : sb.decodeState = UTF8DecodeStart)
    (hn2 : 2 ≤ n) (hn6 : n ≤ 6) (hL : leadOfLength n L)
    (hlen : bs.length = n - 1) (hbs : ∀ b ∈ bs, isContinuation b) :
    sb.feed (L :: bs) =
      ({ sb with
          decodeShift := 0
          decodedChar := contOr 0 ((L &&& (2 ^ (7 - n) - 1)) <<< (6 * (n - 1))) bs
          decodeState := UTF8DecodeStart },
       [PrintCall.wchar (contOr 0 ((L &&& (2 ^ (7 - n) - 1)) <<< (6 * (n - 1))) bs)]) := by
  have hlt := (lead_facts n L hn2 hn6 hL).2.2
  have := feed_continuations 0 bs
    { sb with
        decodeShift := 6 * (n - 1)
        decodedChar := (L &&& (2 ^ (7 - n) - 1)) <<< (6 * (n - 1))
        decodeState := UTF8DecodeMultibyte }
    hov rfl (by simp only [hlen, Nat.add_zero]) (by omega) (by omega) hlt
    (fun b hb => isContinuation_and (hbs b hb))
  rw [feed_cons, overflow_lead sb n L hov hst hn2 hn6 hL, this]
  simp

theorem or_eq_add (i x y : Nat) (hx : x % 2 ^ i = 0) (hy : y < 2 ^ i) : x ||| y = x + y := by
  obtain ⟨a, rfl⟩ := Nat.dvd_of_mod_eq_zero hx
  exact (Nat.mul_add_lt_is_or hy a).symm

theorem payload_facts : ∀ r, r < 64 → (0x80 + r) &&& 0x3f = r ∧ (0x80 + r) / 64 = 2 := by
  decide

theorem lead_payload_facts : ∀ q, q < 32 →
    (0xC0 + q) &&& 31 = q ∧ (q < 16 → (0xE0 + q) &&& 15 = q) ∧ (q < 8 → (0xF0 + q) &&& 7 = q) := by
  decide

theorem encode2_value (c : Nat) (h2 : c < 0x800) :
    contOr 0 (((0xC0 + c / 64) &&& (2 ^ (7 - 2) - 1)) <<< (6 * (2 - 1))) [0x80 + c % 64] = c := by
  have hb := (payload_facts (c % 64) (by omega)).1
  have hq := (lead_payload_facts (c / 64) (by omega)).1
  show (((0xC0 + c / 64) &&& 31) <<< 6) ||| (((0x80 + c % 64) &&& 0x3f) <<< 0) = c
  rw [hq, hb, Nat.shiftLeft_eq, Nat.shiftLeft_eq, or_eq_add 6 _ _ (by omega) (by omega)]
  omega

theorem encode3_value (c : Nat) (h2 : c < 0x10000) :
    contOr 0 (((0xE0 + c / 4096) &&& (2 ^ (7 - 3) - 1)) <<< (6 * (3 - 1)))
      [0x80 + c / 64 % 64, 0x80 + c % 64] = c := by
  have hb0 := (payload_facts (c % 64) (by omega)).1
  have hb1 := (payload_facts (c / 64 % 64) (by omega)).1
  have hq := (lead_payload_facts (c / 4096) (by omega)).2.1 (by omega)
  show ((((0xE0 + c / 4096) &&& 15) <<< 12) ||| (((0x80 + c / 64 % 64) &&& 0x3f) <<< 6))
      ||| (((0x80 + c % 64) &&& 0x3f) <<< 0) = c
  rw [hq, hb0, hb1, Nat.shiftLeft_eq, Nat.shiftLeft_eq, Nat.shiftLeft_eq,
    or_eq_add 12 (c / 4096 * 2 ^ 12) (c / 64 % 64 * 2 ^ 6) (by omega) (by omega),
    or_eq_add 6 _ _ (by omega) (by omega)]
  omega

theorem encode4_value (c : Nat) (h2 : c < 0x200000) :
    contOr 0 (((0xF0 + c / 262144) &&& (2 ^ (7 - 4) - 1)) <<< (6 * (4 - 1)))
      [0x80 + c / 4096 % 64, 0x80 + c / 64 % 64, 0x80 + c % 64] = c := by
  have hb0 := (payload_facts (c % 64) (by omega)).1
  have hb1 := (payload_facts (c / 64 % 64) (by omega)).1
  have hb2 := (payload_facts (c / 4096 % 64) (by omega)).1
  have hq := (lead_payload_facts (c / 262144) (by omega)).2.2 (by omega)
  show (((((0xF0 + c / 262144) &&& 7) <<< 18) ||| (((0x80 + c / 4096 % 64) &&& 0x3f) <<< 12))
      ||| (((0x80 + c / 64 % 64) &&& 0x3f) <<< 6)) ||| (((0x80 + c % 64) &&& 0x3f) <<< 0) = c
  rw [hq, hb0, hb1, hb2, Nat.shiftLeft_eq, Nat.shiftLeft_eq, Nat.shiftLeft_eq, Nat.shiftLeft_eq,
    or_eq_add 18 (c / 262144 * 2 ^ 18) (c / 4096 % 64 * 2 ^ 12) (by omega) (by omega),
    or_eq_add 12 _ (c / 64 % 64 * 2 ^ 6) (by omega) (by omega),
    or_eq_add 6 _ _ (by omega) (by omega)]
  omega

/-- Feeding the encoding of one code point from the start state prints that
code point once and ends in the start state. -/
theorem feed_utf8Encode (sb : OverlayStreamBuf) (c : Nat) (hov : sb.overlay = true)
    (hst : sb.decodeState = UTF8DecodeStart) (hc : c ≤ 0x10FFFF) :
    (sb.feed (utf8Encode c)).2 = [callOf c] ∧
    (sb.feed (utf8Encode c)).1.overlay = true ∧
    (sb.feed (utf8Encode c)).1.decodeState = UTF8DecodeStart := by
  unfold utf8Encode callOf
  by_cases h1 : c < 0x80
  · simp only [h1, if_true, feed_cons, feed_nil, overflow_ascii sb c hov hst h1]
    simp [hov, hst]
  by_cases h2 : c < 0x800
  · have hL : leadOfLength 2 (0xC0 + c / 64) := by
      unfold leadOfLength; norm_num; omega
    simp only [h1, h2, if_true, if_false]
    rw [feed_sequence sb 2 _ [0x80 + c % 64] hov hst (by decide) (by decide) hL rfl
      (by intro b hb; simp at hb; subst hb; exact (payload_facts _ (by omega)).2),
      encode2_value c h2]
    simp [hov]
  by_cases h3 : c < 0x10000
  · have hL : leadOfLength 3 (0xE0 + c / 4096) := by
      unfold leadOfLength; norm_num; omega
    simp only [h1, h2, h3, if_true, if_false]
    rw [feed_sequence sb 3 _ [0x80 + c / 64 % 64, 0x80 + c % 64] hov hst (by decide) (by decide) hL rfl
      (by
        intro b hb
        simp at hb
        rcases hb with rfl | rfl <;> exact (payload_facts _ (by omega)).2),
      encode3_value c h3]
    simp [hov]
  · have hL : leadOfLength 4 (0xF0 + c / 262144) := by
      unfold leadOfLength; norm_num; omega
    simp only [h1, h2, h3, if_false]
    rw [feed_sequence sb 4 _ [0x80 + c / 4096 % 64, 0x80 + c / 64 % 64, 0x80 + c % 64] hov hst (by decide) (by decide) hL rfl
      (by
        intro b hb
        simp at hb
        rcases hb with rfl | rfl | rfl <;> exact (payload_facts _ (by omega)).2),
      encode4_value c (by omega)]
    simp [hov]

theorem feed_utf8EncodeAll (cps : List Nat) (sb : OverlayStreamBuf) (hov : sb.overlay = true)
    (hst : sb.decodeState = UTF8DecodeStart) (hcp : ∀ c ∈ cps, c ≤ 0x10FFFF) :
    (sb.feed (utf8EncodeAll cps)).2 = cps.map callOf ∧
    (sb.feed (utf8EncodeAll cps)).1.overlay = true ∧
    (sb.feed (utf8EncodeAll cps)).1.decodeState = UTF8DecodeStart := by
  induction cps generalizing sb with
  | nil => simp [utf8EncodeAll, feed_nil, hov, hst]
  | cons c cs ih =>
    obtain ⟨e1, e2, e3⟩ := feed_utf8Encode sb c hov hst (hcp c (by simp))
    obtain ⟨i1, i2, i3⟩ := ih _ e2 e3 (fun x hx => hcp x (List.mem_cons_of_mem _ hx))
    simp only [utf8EncodeAll, feed_append, e1, i1, i2, i3]
    simp

theorem callOf_arg (c : Nat) : (callOf c).arg = c := by
  unfold callOf
  split <;> rfl

section bulk

variable {R : Type} [Zero R] [One R] [Add R] [Neg R]

theorem print_char_eq_print_wchar (F : FontMetrics R) (ov : Overlay R) (c : Nat) :
    ov.print_char F c = ov.print_wchar F c := rfl

theorem foldl_dispatch_callOf (F : FontMetrics R) (cps : List Nat) (ov : Overlay R) :
    (cps.map callOf).foldl (Overlay.dispatch F) ov
      = cps.foldl (fun o c => o.print_wchar F c) ov := by
  induction cps generalizing ov with
  | nil => rfl
  | cons c cs ih =>
    simp only [List.map_cons, List.foldl_cons]
    rw [ih]
    congr 1
    unfold callOf
    split <;> rfl

theorem UTF8EncodedSize_utf8Encode (c : Nat) (hc : c ≤ 0x10FFFF) :
    UTF8EncodedSize c = (utf8Encode c).length := by
  unfold UTF8EncodedSize utf8Encode
  split_ifs <;> first | rfl | omega

theorem utf8Encode_length_pos (c : Nat) : 0 < (utf8Encode c).length := by
  unfold utf8Encode
  split_ifs <;> simp

theorem UTF8Decode_ascii (s : List Nat) (pos length ch c0 : Nat) (rest : List Nat)
    (hdrop : s.drop pos = c0 :: rest) (h80 : c0 < 0x80) :
    UTF8Decode s pos length ch = (true, c0) := by
  simp [UTF8Decode, hdrop, h80]

theorem UTF8Decode_multi (s : List Nat) (pos length ch c0 n : Nat) (rest tail : List Nat)
    (hdrop : s.drop pos = c0 :: rest) (h80 : ¬ c0 < 0x80) (hcount : leadCount c0 = n)
    (hn : 1 < n) (hlen : pos + n ≤ length) (htake : rest.take (n - 1) = tail)
    (htl : tail.length = n - 1) (hall : ∀ b ∈ tail, b &&& 0xc0 = 0x80) :
    UTF8Decode s pos length ch =
      (true, tail.foldl (fun acc b => (acc <<< 6) ||| (b &&& 0x3f))
        (c0 &&& ((1 <<< (7 - n)) - 1))) := by
  subst htake
  unfold UTF8Decode
  rw [hdrop]
  simp only [h80, if_false]
  have hc : (if c0 &&& 0xe0 = 0xc0 then 2
      else if c0 &&& 0xf0 = 0xe0 then 3
      else if c0 &&& 0xf8 = 0xf0 then 4
      else if c0 &&& 0xfc = 0xf8 then 5
      else if c0 &&& 0xfe = 0xfc then 6
      else 1) = n := hcount
  simp only [hc]
  have hall2 : ((rest.take (n - 1)).all fun b => decide (b &&& 0xc0 = 0x80)) = true := by
    simpa using hall
  simp [hn, hlen, htl, hall2]

theorem lead_of_encode (q : Nat) (hq : q < 32) :
    leadCount (0xC0 + q) = 2 ∧ (q < 16 → leadCount (0xE0 + q) = 3) ∧
    (q < 8 → leadCount (0xF0 + q) = 4) := by
  refine ⟨?_, fun h => ?_, fun h => ?_⟩
  · exact (leadCount_lt_256 _ (by omega)).1.2 (by omega)
  · exact (leadCount_lt_256 _ (by omega)).2.1.2 (by omega)
  · exact (leadCount_lt_256 _ (by omega)).2.2.1.2 (by omega)

theorem payload_and (r : Nat) (hr : r < 64) : (0x80 + r) &&& 0xc0 = 0x80 :=
  isContinuation_and (payload_facts r hr).2

/-- The batch decoder reads the code point back from its encoding, wherever
the encoding sits in the buffer. -/
theorem UTF8Decode_utf8Encode (pre post : List Nat) (c ch : Nat) (hc : c ≤ 0x10FFFF) :
    UTF8Decode (pre ++ (utf8Encode c ++ post)) pre.length
      (pre.length + ((utf8Encode c).length + post.length)) ch = (true, c) := by
  have hdrop : ∀ l : List Nat, (pre ++ l).drop pre.length = l := fun l => by simp
  unfold utf8Encode
  by_cases h1 : c < 0x80
  · simp only [h1, if_true]
    exact UTF8Decode_ascii _ _ _ _ c post (by rw [hdrop]; simp) h1
  by_cases h2 : c < 0x800
  · simp only [h1, h2, if_true, if_false]
    rw [UTF8Decode_multi _ _ _ _ (0xC0 + c / 64) 2 ((0x80 + c % 64) :: post) [0x80 + c % 64]
      (by rw [hdrop]; simp) (by omega) (lead_of_encode _ (by omega)).1 (by decide)
      (by simp only [List.length_cons, List.length_nil]; omega) rfl rfl
      (by intro b hb; simp at hb; subst hb; exact payload_and _ (by omega))]
    have hb := (payload_facts (c % 64) (by omega)).1
    have hq := (lead_payload_facts (c / 64) (by omega)).1
    show (true, (((0xC0 + c / 64) &&& 31) <<< 6) ||| ((0x80 + c % 64) &&& 0x3f)) = (true, c)
    rw [hq, hb, Nat.shiftLeft_eq, or_eq_add 6 _ _ (by omega) (by omega)]
    congr 1
    omega
  by_cases h3 : c < 0x10000
  · simp only [h1, h2, h3, if_true, if_false]
    rw [UTF8Decode_multi _ _ _ _ (0xE0 + c / 4096) 3
      ((0x80 + c / 64 % 64) :: (0x80 + c % 64) :: post) [0x80 + c / 64 % 64, 0x80 + c % 64]
      (by rw [hdrop]; simp) (by omega) ((lead_of_encode _ (by omega)).2.1 (by omega))
      (by decide) (by simp only [List.length_cons, List.length_nil]; omega) rfl rfl
      (by
        intro b hb
        simp at hb
        rcases hb with rfl | rfl <;> exact payload_and _ (by omega))]
    have hb0 := (payload_facts (c % 64) (by omega)).1
    have hb1 := (payload_facts (c / 64 % 64) (by omega)).1
    have hq := (lead_payload_facts (c / 4096) (by omega)).2.1 (by omega)
    show (true, ((((0xE0 + c / 4096) &&& 15) <<< 6 ||| ((0x80 + c / 64 % 64) &&& 0x3f)) <<< 6)
      ||| ((0x80 + c % 64) &&& 0x3f)) = (true, c)
    rw [hq, hb0, hb1, Nat.shiftLeft_eq, Nat.shiftLeft_eq,
      or_eq_add 6 (c / 4096 * 2 ^ 6) (c / 64 % 64) (by omega) (by omega),
      or_eq_add 6 _ _ (by omega) (by omega)]
    congr 1
    omega
  · simp only [h1, h2, h3, if_false]
    rw [UTF8Decode_multi _ _ _ _ (0xF0 + c / 262144) 4
      ((0x80 + c / 4096 % 64) :: (0x80 + c / 64 % 64) :: (0x80 + c % 64) :: post)
      [0x80 + c / 4096 % 64, 0x80 + c / 64 % 64, 0x80 + c % 64]
      (by rw [hdrop]; simp) (by omega) ((lead_of_encode _ (by omega)).2.2 (by omega))
      (by decide) (by simp only [List.length_cons, List.length_nil]; omega) rfl rfl
      (by
        intro b hb
        simp at hb
        rcases hb with rfl | rfl | rfl <;> exact payload_and _ (by omega))]
    have hb0 := (payload_facts (c % 64) (by omega)).1
    have hb1 := (payload_facts (c / 64 % 64) (by omega)).1
    have hb2 := (payload_facts (c / 4096 % 64) (by omega)).1
    have hq := (lead_payload_facts (c / 262144) (by omega)).2.2 (by omega)
    show (true, (((((0xF0 + c / 262144) &&& 7) <<< 6 ||| ((0x80 + c / 4096 % 64) &&& 0x3f)) <<< 6
      ||| ((0x80 + c / 64 % 64) &&& 0x3f)) <<< 6) ||| ((0x80 + c % 64) &&& 0x3f)) = (true, c)
    rw [hq, hb0, hb1, hb2, Nat.shiftLeft_eq, Nat.shiftLeft_eq, Nat.shiftLeft_eq,
      or_eq_add 6 (c / 262144 * 2 ^ 6) (c / 4096 % 64) (by omega) (by omega),
      or_eq_add 6 _ (c / 64 % 64) (by omega) (by omega),
      or_eq_add 6 _ _ (by omega) (by omega)]
    congr 1
    omega

/-- The loop of the string print on an encoded buffer, started at the
boundary between two encoded characters: it finishes within the fuel and has
printed the remaining code points in order. -/
theorem printLoop_utf8EncodeAll (F : FontMetrics R) (cps : List Nat) (pre : List Nat)
    (ov : Overlay R) (fuel : Nat) (hcp : ∀ c ∈ cps, c ≤ 0x10FFFF)
    (hfuel : (utf8EncodeAll cps).length ≤ fuel) :
    Overlay.printLoop UTF8Decode F (pre ++ utf8EncodeAll cps)
        (pre.length + (utf8EncodeAll cps).length) fuel pre.length true ov
      = some (cps.foldl (fun o c => o.print_wchar F c) ov) := by
  induction cps generalizing pre ov fuel with
  | nil =>
    cases fuel <;> simp [utf8EncodeAll, Overlay.printLoop]
  | cons c cs ih =>
    have hc : c ≤ 0x10FFFF := hcp c (by simp)
    have hpos := utf8Encode_length_pos c
    simp only [utf8EncodeAll, List.length_append] at hfuel ⊢
    obtain ⟨fuel, rfl⟩ : ∃ k, fuel = k + 1 := ⟨fuel - 1, by omega⟩
    have hlt : pre.length < pre.length + ((utf8Encode c).length + (utf8EncodeAll cs).length) := by
      omega
    rw [Overlay.printLoop]
    simp only [hlt, true_and, if_true]
    rw [UTF8Decode_utf8Encode pre (utf8EncodeAll cs) c 0 hc]
    simp only [UTF8EncodedSize_utf8Encode c hc, List.foldl_cons]
    have := ih (pre ++ utf8Encode c) (ov.print_wchar F c) fuel
      (fun x hx => hcp x (List.mem_cons_of_mem _ hx)) (by omega)
    simp only [List.length_append, List.append_assoc, Nat.add_assoc] at this
    exact this

end bulk

/-! ## Claims on the decoder -/

/-- C1: for every list of code points and its standard UTF-8 encoding, feeding
the bytes one at a time from `UTF8DecodeStart`, overlay attached, makes as many
calls of `overlay->print` as there are code points, with the code points as
arguments in order, and ends in `UTF8DecodeStart`. -/
theorem decoder_round_trip (sb : OverlayStreamBuf) (cps : List Nat)
    (hov : sb.overlay = true) (hst : sb.decodeState = UTF8DecodeStart)
    (hcp : ∀ c ∈ cps, c ≤ 0x10FFFF) :
    (sb.feed (utf8EncodeAll cps)).2.map PrintCall.arg = cps ∧
    (sb.feed (utf8EncodeAll cps)).2.length = cps.length ∧
    (sb.feed (utf8EncodeAll cps)).1.decodeState = UTF8DecodeStart := by
  obtain ⟨h1, _, h3⟩ := feed_utf8EncodeAll cps sb hov hst hcp
  refine ⟨?_, ?_, h3⟩
  · rw [h1, List.map_map]
    have : PrintCall.arg ∘ callOf = id := funext callOf_arg
    rw [this, List.map_id]
  · rw [h1, List.length_map]

/-- Witness for C1: one code point of each encoded length. -/
theorem decoder_round_trip_witness :
    (OverlayStreamBuf.start.feed (utf8EncodeAll [0x41, 0xE9, 0x20AC, 0x1F600])).2.map
      PrintCall.arg = [0x41, 0xE9, 0x20AC, 0x1F600] :=
  (decoder_round_trip OverlayStreamBuf.start [0x41, 0xE9, 0x20AC, 0x1F600] rfl rfl
    (by decide)).1

/-- C2: on a complete valid UTF-8 string (the encoding of code points
`1 .. 0x10FFFF`, so without a NUL byte) `Overlay::print(const char*)` returns
and leaves the overlay in the very state reached by feeding the bytes one at a
time to `overflow` from `UTF8DecodeStart` and routing each call to the
single-character `print` it names; in particular the rendered code points and
the pen position `(xoffset, yoffset)` are the same. -/
theorem bulk_print_equals_incremental {R : Type} [Zero R] [One R] [Add R] [Neg R]
    (F : FontMetrics R) (ov : Overlay R) (sb : OverlayStreamBuf) (cps : List Nat)
    (hov : sb.overlay = true) (hst : sb.decodeState = UTF8DecodeStart)
    (hcp : ∀ c ∈ cps, 0 < c ∧ c ≤ 0x10FFFF) :
    ∃ bulk : Overlay R,
      ov.print_str F (utf8EncodeAll cps) = some bulk ∧
      bulk = (sb.feed (utf8EncodeAll cps)).2.foldl (Overlay.dispatch F) ov ∧
      renderedChars bulk.gl.calls
        = renderedChars ((sb.feed (utf8EncodeAll cps)).2.foldl (Overlay.dispatch F) ov).gl.calls ∧
      bulk.xoffset = ((sb.feed (utf8EncodeAll cps)).2.foldl (Overlay.dispatch F) ov).xoffset ∧
      bulk.yoffset = ((sb.feed (utf8EncodeAll cps)).2.foldl (Overlay.dispatch F) ov).yoffset := by
  have hcp2 : ∀ c ∈ cps, c ≤ 0x10FFFF := fun c hc => (hcp c hc).2
  have hbulk := printLoop_utf8EncodeAll F cps [] ov (utf8EncodeAll cps).length hcp2 (le_refl _)
  simp only [List.nil_append, List.length_nil, Nat.zero_add] at hbulk
  have hinc := (feed_utf8EncodeAll cps sb hov hst hcp2).1
  refine ⟨cps.foldl (fun o c => o.print_wchar F c) ov, hbulk, ?_⟩
  rw [hinc, foldl_dispatch_callOf]
  exact ⟨rfl, rfl, rfl, rfl⟩

/-- Witness for C2: the string "Aé€" printed on the demo overlay. -/
theorem bulk_print_equals_incremental_witness :
    ∃ bulk : Overlay Int,
      demoOverlay.print_str demoMetrics (utf8EncodeAll [0x41, 0xE9, 0x20AC]) = some bulk ∧
      bulk = (OverlayStreamBuf.start.feed (utf8EncodeAll [0x41, 0xE9, 0x20AC])).2.foldl
        (Overlay.dispatch demoMetrics) demoOverlay :=
  have h := bulk_print_equals_incremental demoMetrics demoOverlay OverlayStreamBuf.start
    [0x41, 0xE9, 0x20AC] rfl rfl (by decide)
  h.elim fun bulk hb => ⟨bulk, hb.1, hb.2.1⟩

/-- C3: in the middle of a sequence a byte that is not of the form `10xxxxxx`
prints nothing, sends the decoder back to `UTF8DecodeStart` and is itself
dropped (the accumulator fields stay as they were, the byte starts no new
sequence); so `0xE2, 0x41` from the start state prints nothing, and a further
`0x41` is then printed as the one character `0x41`. -/
theorem truncated_sequence_drops_byte (sb : OverlayStreamBuf) (b : Nat)
    (hov : sb.overlay = true) (hst : sb.decodeState = UTF8DecodeMultibyte)
    (hbyte : b < 256) (hb : ¬ isContinuation b) :
    sb.overflow b = ({ sb with decodeState := UTF8DecodeStart }, []) ∧
    (∀ s0 : OverlayStreamBuf, s0.overlay = true → s0.decodeState = UTF8DecodeStart →
      (s0.feed [0xE2, 0x41]).2 = [] ∧
      (s0.feed [0xE2, 0x41]).1.decodeState = UTF8DecodeStart ∧
      (s0.feed [0xE2, 0x41, 0x41]).2 = [PrintCall.char 0x41]) := by
  have hb2 : ¬ b &&& 0xc0 = 0x80 := fun h => hb ((isContinuation_iff b hbyte).2 h)
  refine ⟨overflow_multibyte_bad sb b hov hst hb2, ?_⟩
  intro s0 h0 h1
  obtain ⟨ov, st, dc, ds⟩ := s0
  simp only at h0 h1
  subst h0 h1
  have e1 : OverlayStreamBuf.overflow ⟨true, UTF8DecodeStart, dc, ds⟩ 0xE2 =
      (⟨true, UTF8DecodeMultibyte, 0x2000, 12⟩, []) := by
    rw [overflow_start_high _ 0xE2 rfl rfl (by decide)]
    rfl
  have e2 : OverlayStreamBuf.overflow ⟨true, UTF8DecodeMultibyte, 0x2000, 12⟩ 0x41 =
      (⟨true, UTF8DecodeStart, 0x2000, 12⟩, []) := by decide
  have e3 : OverlayStreamBuf.overflow ⟨true, UTF8DecodeStart, 0x2000, 12⟩ 0x41 =
      (⟨true, UTF8DecodeStart, 0x2000, 12⟩, [PrintCall.char 0x41]) := by decide
  simp [feed_cons, feed_nil, e1, e2, e3]

/-- Witness for C3: the state left by the lead byte `0xE2`, and the byte `0x41`. -/
theorem truncated_sequence_drops_byte_witness :
    (OverlayStreamBuf.overflow ⟨true, UTF8DecodeMultibyte, 0x2000, 12⟩ 0x41
        = (⟨true, UTF8DecodeStart, 0x2000, 12⟩, [])) ∧
    (OverlayStreamBuf.start.feed [0xE2, 0x41, 0x41]).2 = [PrintCall.char 0x41] :=
  have h := truncated_sequence_drops_byte ⟨true, UTF8DecodeMultibyte, 0x2000, 12⟩ 0x41
    rfl rfl (by decide) (by decide)
  ⟨h.1, (h.2 OverlayStreamBuf.start rfl rfl).2.2⟩

/-- C4: in `UTF8DecodeStart` a byte in `0x80..0xBF` or `0xFE..0xFF` prints
nothing and leaves the whole decoder state as it was; so `0xFF` followed by
`0x41` prints exactly the one character `0x41`. -/
theorem invalid_lead_byte_skipped (sb : OverlayStreamBuf) (b : Nat)
    (hov : sb.overlay = true) (hst : sb.decodeState = UTF8DecodeStart)
    (hb : (0x80 ≤ b ∧ b ≤ 0xBF) ∨ (0xFE ≤ b ∧ b ≤ 0xFF)) :
    sb.overflow b = (sb, []) ∧ sb.feed [0xFF, 0x41] = (sb, [PrintCall.char 0x41]) := by
  have key : ∀ x, ((0x80 ≤ x ∧ x ≤ 0xBF) ∨ (0xFE ≤ x ∧ x ≤ 0xFF)) → sb.overflow x = (sb, []) := by
    intro x hx
    have hx256 : x < 256 := by omega
    have h1 : leadCount x = 1 := ((leadCount_lt_256 x hx256).2.2.2.2.2).2 (by omega)
    rw [overflow_start_high sb x hov hst (by omega), h1]
    simp
  refine ⟨key b hb, ?_⟩
  simp only [feed_cons, feed_nil, key 0xFF (by decide),
    overflow_ascii sb 0x41 hov hst (by decide)]
  simp

/-- Witness for C4: the byte `0xFF` in the start state. -/
theorem invalid_lead_byte_skipped_witness :
    OverlayStreamBuf.start.overflow 0xFF = (OverlayStreamBuf.start, []) ∧
    OverlayStreamBuf.start.feed [0xFF, 0x41] = (OverlayStreamBuf.start, [PrintCall.char 0x41]) :=
  invalid_lead_byte_skipped OverlayStreamBuf.start 0xFF rfl rfl (by decide)

/-- C5: one call of `overflow` on a byte makes at most one call of
`overlay->print`, and makes one exactly when the state is `UTF8DecodeStart`
and the byte is below `0x80`, or the state is `UTF8DecodeMultibyte`, the byte
has the form `10xxxxxx` and `decodeShift` is 6 before the call. -/
theorem emission_exactly_on_completion (sb : OverlayStreamBuf) (b : Nat)
    (hov : sb.overlay = true) (hr : sb.InRange) (hbyte : b < 256) :
    (sb.overflow b).2.length ≤ 1 ∧
    ((sb.overflow b).2.length = 1 ↔
      (sb.decodeState = UTF8DecodeStart ∧ b < 0x80) ∨
      (sb.decodeState = UTF8DecodeMultibyte ∧ isContinuation b ∧ sb.decodeShift = 6)) := by
  have hds : sb.decodeShift < 2 ^ 32 := hr.2
  cases hst : sb.decodeState with
  | UTF8DecodeStart =>
    by_cases hc : b < 0x80
    · rw [overflow_ascii sb b hov hst hc]
      simp [hc]
    · rw [overflow_start_high sb b hov hst hc]
      split_ifs <;> simp [hc]
  | UTF8DecodeMultibyte =>
    by_cases hc : b &&& 0xc0 = 0x80
    · have hcont : isContinuation b := (isContinuation_iff b hbyte).2 hc
      rw [overflow_multibyte_cont sb b hov hst hc]
      split_ifs with h1
      · have : sb.decodeShift = 6 := by omega
        simp [hcont, this]
      · have : sb.decodeShift ≠ 6 := by omega
        simp [this]
    · have hcont : ¬ isContinuation b := fun h => hc (isContinuation_and h)
      rw [overflow_multibyte_bad sb b hov hst hc]
      simp [hcont]

/-- Witness for C5: the last continuation byte of a two-byte sequence. -/
theorem emission_exactly_on_completion_witness :
    (OverlayStreamBuf.overflow ⟨true, UTF8DecodeMultibyte, 0x40, 6⟩ 0xA9).2.length = 1 :=
  (emission_exactly_on_completion ⟨true, UTF8DecodeMultibyte, 0x40, 6⟩ 0xA9 rfl
    (by decide) (by decide)).2.2 (Or.inr ⟨rfl, by decide, rfl⟩)

/-- C6: for `n` from 2 to 6, a lead byte selecting length `n` followed by
`n - 1` continuation bytes, fed from `UTF8DecodeStart`: after the lead byte
`decodeShift` is `6 (n - 1)` and the accumulator is the lead payload shifted by
it, nothing is printed before the last byte, and the last byte prints exactly
one character, the OR of the shifted payloads, and returns to
`UTF8DecodeStart`. -/
theorem multibyte_sequence_decoded (sb : OverlayStreamBuf) (n L : Nat) (bs : List Nat)
    (hov : sb.overlay = true) (hst : sb.decodeState = UTF8DecodeStart)
    (hn2 : 2 ≤ n) (hn6 : n ≤ 6) (hL : leadOfLength n L)
    (hlen : bs.length = n - 1) (hbs : ∀ b ∈ bs, isContinuation b) :
    (sb.overflow L).2 = [] ∧
    (sb.overflow L).1.decodeState = UTF8DecodeMultibyte ∧
    (sb.overflow L).1.decodeShift = 6 * (n - 1) ∧
    (sb.overflow L).1.decodedChar = (L &&& (2 ^ (7 - n) - 1)) <<< (6 * (n - 1)) ∧
    (∀ k, k < n - 1 → (sb.feed (L :: bs.take k)).2 = []) ∧
    (sb.feed (L :: bs)).2 = [PrintCall.wchar (seqValue n L bs)] ∧
    (sb.feed (L :: bs)).1.decodeState = UTF8DecodeStart := by
  have hlead := overflow_lead sb n L hov hst hn2 hn6 hL
  have hlt := (lead_facts n L hn2 hn6 hL).2.2
  have hcont : ∀ b ∈ bs, b &&& 0xc0 = 0x80 := fun b hb => isContinuation_and (hbs b hb)
  refine ⟨by rw [hlead], by rw [hlead], by rw [hlead], by rw [hlead], ?_, ?_, ?_⟩
  · intro k hk
    have hklen : (bs.take k).length = k := by
      rw [List.length_take]; omega
    have := feed_continuations (n - 1 - k) (bs.take k)
      { sb with
          decodeShift := 6 * (n - 1)
          decodedChar := (L &&& (2 ^ (7 - n) - 1)) <<< (6 * (n - 1))
          decodeState := UTF8DecodeMultibyte }
      hov rfl (by simp only [hklen]; congr 1; omega) (by omega) (by omega) hlt
      (fun b hb => hcont b (List.mem_of_mem_take hb))
    rw [feed_cons, hlead, this]
    have hm : ¬ n - 1 - k = 0 := by omega
    simp [hm]
  · have := feed_continuations 0 bs
      { sb with
          decodeShift := 6 * (n - 1)
          decodedChar := (L &&& (2 ^ (7 - n) - 1)) <<< (6 * (n - 1))
          decodeState := UTF8DecodeMultibyte }
      hov rfl (by simp only [hlen, Nat.add_zero]) (by omega) (by omega) hlt hcont
    rw [feed_cons, hlead, this, seqValue_eq_contOr n L bs hn2 hn6 hlen]
    simp
  · have := feed_continuations 0 bs
      { sb with
          decodeShift := 6 * (n - 1)
          decodedChar := (L &&& (2 ^ (7 - n) - 1)) <<< (6 * (n - 1))
          decodeState := UTF8DecodeMultibyte }
      hov rfl (by simp only [hlen, Nat.add_zero]) (by omega) (by omega) hlt hcont
    rw [feed_cons, hlead, this]
    simp

/-- Witness for C6: the three bytes `0xE2 0x82 0xAC` of U+20AC. -/
theorem multibyte_sequence_decoded_witness :
    (OverlayStreamBuf.start.feed [0xE2, 0x82, 0xAC]).2 = [PrintCall.wchar 0x20AC] :=
  (multibyte_sequence_decoded OverlayStreamBuf.start 3 0xE2 [0x82, 0xAC] rfl rfl
    (by decide) (by decide) (by decide) rfl (by decide)).2.2.2.2.2.1

/-- C7: in every state reached from `UTF8DecodeStart` by feeding bytes, valid
or not, `decodeShift` is a multiple of 6 whenever the state is
`UTF8DecodeMultibyte`. -/
theorem decodeShift_multiple_of_six (sb : OverlayStreamBuf) (bytes : List Nat)
    (hst : sb.decodeState = UTF8DecodeStart) :
    (sb.feed bytes).1.decodeState = UTF8DecodeMultibyte →
      6 ∣ (sb.feed bytes).1.decodeShift := by
  intro hm
  have hinv : MidSequenceInv sb := by
    intro h
    rw [hst] at h
    cases h
  exact Nat.dvd_of_mod_eq_zero (feed_midSequenceInv bytes sb hinv hm).1

/-- Witness for C7: after the lead byte `0xF0` and one continuation byte the
shift is 12. -/
theorem decodeShift_multiple_of_six_witness :
    6 ∣ (OverlayStreamBuf.start.feed [0xF0, 0x9F]).1.decodeShift :=
  decodeShift_multiple_of_six OverlayStreamBuf.start [0xF0, 0x9F] rfl (by decide)

/-! ## Claims on the text cursor -/

/-- C8, as stated, fails: after `beginText()`, two glyph prints and
`print('\n')` on the demo overlay (line height 10) the field `yoffset` is not
lower by 11 than before the newline; it still holds the value 5. -/
theorem newline_in_block_yoffset_counterexample :
    (((demoOverlay.beginText.print_wchar demoMetrics 65).print_wchar demoMetrics 66).print_wchar
        demoMetrics 10).yoffset = 5 ∧
    ¬ ((((demoOverlay.beginText.print_wchar demoMetrics 65).print_wchar demoMetrics 66).print_wchar
          demoMetrics 10).xoffset = 0 ∧
       (((demoOverlay.beginText.print_wchar demoMetrics 65).print_wchar demoMetrics 66).print_wchar
          demoMetrics 10).yoffset =
        ((demoOverlay.beginText.print_wchar demoMetrics 65).print_wchar demoMetrics 66).yoffset
          - (1 + demoMetrics.getHeight 1)) := by
  decide

/-- C8, amended: for every cursor state with a font set, after `beginText()`,
two prints of non-newline code points and then `print('\n')`, `xoffset` is 0
and the field `yoffset` is unchanged; the line advance is made on the
modelview stack instead: the newline calls `glPopMatrix`, `glTranslatef(0,
-(1 + font->getHeight()), 0)`, `glPushMatrix`, so the current matrix is the
one from before the block translated down by exactly `1 + font->getHeight()`,
saved once below itself. The same holds for the `char` overload. -/
theorem newline_in_block {R : Type} [Zero R] [One R] [Add R] [Neg R]
    (F : FontMetrics R) (ov : Overlay R) (f : FontId) (c1 c2 : Nat)
    (hfont : ov.font = some f) (h1 : c1 ≠ 10) (h2 : c2 ≠ 10) :
    (((ov.beginText.print_wchar F c1).print_wchar F c2).print_wchar F 10).xoffset = 0 ∧
    (((ov.beginText.print_wchar F c1).print_wchar F c2).print_wchar F 10).yoffset = ov.yoffset ∧
    ((ov.beginText.print_wchar F c1).print_wchar F c2).yoffset = ov.yoffset ∧
    (((ov.beginText.print_wchar F c1).print_wchar F c2).print_wchar F 10).gl.calls =
      ((ov.beginText.print_wchar F c1).print_wchar F c2).gl.calls ++
        [GLCall.glPopMatrix, GLCall.glTranslatef 0 (-(1 + F.getHeight f)) 0,
         GLCall.glPushMatrix] ∧
    ((ov.beginText.print_wchar F c1).print_wchar F c2).gl.current = ov.gl.current ∧
    (((ov.beginText.print_wchar F c1).print_wchar F c2).print_wchar F 10).gl.current =
      (0, -(1 + F.getHeight f), 0) :: ov.gl.current ∧
    (((ov.beginText.print_wchar F c1).print_wchar F c2).print_wchar F 10).gl.saved =
      ((0, -(1 + F.getHeight f), 0) :: ov.gl.current) :: ov.gl.saved ∧
    ((ov.beginText.print_char F c1).print_char F c2).print_char F 10 =
      ((ov.beginText.print_wchar F c1).print_wchar F c2).print_wchar F 10 := by
  simp [Overlay.beginText, Overlay.print_wchar, Overlay.print_char, hfont, h1, h2,
    GLState.glPushMatrix, GLState.glPopMatrix, GLState.glTranslatef, GLState.bind,
    GLState.render]

/-- Witness for C8 (amended): the demo overlay, the glyphs `A` and `B`. -/
theorem newline_in_block_witness :
    (((demoOverlay.beginText.print_wchar demoMetrics 65).print_wchar demoMetrics 66).print_wchar
        demoMetrics 10).xoffset = 0 ∧
    (((demoOverlay.beginText.print_wchar demoMetrics 65).print_wchar demoMetrics 66).print_wchar
        demoMetrics 10).gl.current = [(0, -11, 0)] :=
  have h := newline_in_block demoMetrics demoOverlay 1 65 66 rfl (by decide) (by decide)
  ⟨h.1, h.2.2.2.2.2.1⟩

/-- C9: with `textBlock = 0`, font set or not, `print('\n')` leaves `xoffset`,
`yoffset` and `textBlock` unchanged and the modelview stack untouched; the
only call it can make is the font's `bind`, so there is no matrix push, pop or
translate and no glyph render. This holds for the `wchar_t` and the `char`
overload. -/
theorem newline_outside_block {R : Type} [Zero R] [One R] [Add R] [Neg R]
    (F : FontMetrics R) (ov : Overlay R) (hblock : ov.textBlock = 0) :
    ((ov.print_wchar F 10).xoffset = ov.xoffset ∧
     (ov.print_wchar F 10).yoffset = ov.yoffset ∧
     (ov.print_wchar F 10).textBlock = 0 ∧
     (ov.print_wchar F 10).gl.current = ov.gl.current ∧
     (ov.print_wchar F 10).gl.saved = ov.gl.saved ∧
     ((ov.print_wchar F 10).gl.calls = ov.gl.calls ∨
       ∃ f, ov.font = some f ∧ (ov.print_wchar F 10).gl.calls = ov.gl.calls ++ [GLCall.bind f])) ∧
    ((ov.print_char F 10).xoffset = ov.xoffset ∧
     (ov.print_char F 10).yoffset = ov.yoffset ∧
     (ov.print_char F 10).textBlock = 0 ∧
     (ov.print_char F 10).gl.current = ov.gl.current ∧
     (ov.print_char F 10).gl.saved = ov.gl.saved ∧
     ((ov.print_char F 10).gl.calls = ov.gl.calls ∨
       ∃ f, ov.font = some f ∧ (ov.print_char F 10).gl.calls = ov.gl.calls ++ [GLCall.bind f])) := by
  have key : (ov.print_wchar F 10).xoffset = ov.xoffset ∧
     (ov.print_wchar F 10).yoffset = ov.yoffset ∧
     (ov.print_wchar F 10).textBlock = 0 ∧
     (ov.print_wchar F 10).gl.current = ov.gl.current ∧
     (ov.print_wchar F 10).gl.saved = ov.gl.saved ∧
     ((ov.print_wchar F 10).gl.calls = ov.gl.calls ∨
       ∃ f, ov.font = some f ∧
        (ov.print_wchar F 10).gl.calls = ov.gl.calls ++ [GLCall.bind f]) := by
    cases hf : ov.font with
    | none => simp [Overlay.print_wchar, hf, hblock]
    | some f =>
      by_cases hb : (!ov.useTexture || ov.fontChanged) = true
      · simp [Overlay.print_wchar, hf, hblock, hb, GLState.bind]
      · simp [Overlay.print_wchar, hf, hblock, hb]
  exact ⟨key, key⟩

/-- Witness for C9: the demo overlay, which is outside any block. -/
theorem newline_outside_block_witness :
    (demoOverlay.print_wchar demoMetrics 10).xoffset = demoOverlay.xoffset ∧
    (demoOverlay.print_wchar demoMetrics 10).gl.saved = demoOverlay.gl.saved :=
  have h := newline_outside_block demoMetrics demoOverlay rfl
  ⟨h.1.1, h.1.2.2.2.2.1⟩

/-- C10: for every cursor state with a font set, `beginText()` followed by
`endText()` returns, leaves `textBlock` at its value before `beginText()`,
leaves `xoffset` at 0 and leaves the modelview stack at the depth (and with
the matrices) it had before `beginText()`. -/
theorem beginText_endText_balanced {R : Type} [Zero R] [One R] [Add R] [Neg R]
    (ov : Overlay R) (f : FontId) (hfont : ov.font = some f) :
    ∃ ov2 : Overlay R,
      ov.beginText.endText = some ov2 ∧
      ov2.textBlock = ov.textBlock ∧
      ov2.xoffset = 0 ∧
      ov2.gl.depth = ov.gl.depth ∧
      ov2.gl.current = ov.gl.current ∧
      ov2.gl.saved = ov.gl.saved := by
  simp [Overlay.beginText, Overlay.endText, hfont, GLState.glPushMatrix, GLState.glPopMatrix,
    GLState.bind, GLState.unbind, GLState.depth]

/-- Witness for C10: the demo overlay. -/
theorem beginText_endText_balanced_witness :
    ∃ ov2 : Overlay Int,
      demoOverlay.beginText.endText = some ov2 ∧ ov2.textBlock = 0 ∧ ov2.xoffset = 0 ∧
      ov2.gl.depth = 1 :=
  (beginText_endText_balanced demoOverlay 1 rfl).elim
    fun ov2 h => ⟨ov2, h.1, h.2.1, h.2.2.1, h.2.2.2.1⟩

section arithLemmas

theorem or_mod_two_pow_eq_zero (a b k : Nat) (ha : a % 2 ^ k = 0) (hb : b % 2 ^ k = 0) :
    (a ||| b) % 2 ^ k = 0 := by
  apply Nat.eq_of_testBit_eq
  intro i
  have h1 : (a % 2 ^ k).testBit i = false := by rw [ha]; exact Nat.zero_testBit i
  have h2 : (b % 2 ^ k).testBit i = false := by rw [hb]; exact Nat.zero_testBit i
  rw [Nat.testBit_mod_two_pow] at h1 h2 ⊢
  rw [Nat.testBit_or, Nat.zero_testBit]
  cases hd : decide (i < k) <;> simp_all

theorem mod_two_pow_of_le (a j k : Nat) (hjk : j ≤ k) (ha : a % 2 ^ k = 0) : a % 2 ^ j = 0 := by
  have h1 : 2 ^ j ∣ 2 ^ k := Nat.pow_dvd_pow 2 hjk
  exact Nat.mod_eq_zero_of_dvd (Nat.dvd_trans h1 (Nat.dvd_of_mod_eq_zero ha))

theorem lead_value_lt (n c : Nat) (hn2 : 2 ≤ n) (hn6 : n ≤ 6) :
    (c &&& ((1 <<< (7 - n)) - 1)) <<< ((n - 1) * 6) < 2 ^ 31 := by
  have hmask : c &&& ((1 <<< (7 - n)) - 1) ≤ (1 <<< (7 - n)) - 1 := Nat.and_le_right
  rw [Nat.shiftLeft_eq]
  rw [Nat.shiftLeft_eq] at hmask ⊢
  interval_cases n <;> norm_num at hmask ⊢ <;> omega

theorem payload_lt_31 (b k : Nat) (hk : k ≤ 24) : (b &&& 0x3f) <<< k < 2 ^ 31 := by
  have h1 : b &&& 0x3f ≤ 0x3f := Nat.and_le_right
  have h2 : 2 ^ k ≤ 2 ^ 24 := Nat.pow_le_pow_right (by decide) hk
  rw [Nat.shiftLeft_eq]
  calc (b &&& 0x3f) * 2 ^ k ≤ 0x3f * 2 ^ 24 := Nat.mul_le_mul h1 h2
    _ < 2 ^ 31 := by norm_num

theorem overflow_arithInv (sb : OverlayStreamBuf) (c : Nat) (h : ArithInv sb) :
    ArithInv (sb.overflow c).1 ∧ ∀ p ∈ (sb.overflow c).2, p.arg < 2 ^ 31 := by
  cases hov : sb.overlay with
  | false => rw [overflow_no_overlay sb c hov]; exact ⟨h, by simp⟩
  | true =>
    cases hst : sb.decodeState with
    | UTF8DecodeStart =>
      by_cases hc : c < 0x80
      · rw [overflow_ascii sb c hov hst hc]
        refine ⟨h, ?_⟩
        intro p hp
        simp at hp
        subst hp
        show c < 2 ^ 31
        omega
      · rw [overflow_start_high sb c hov hst hc]
        have hr := leadCount_range c
        have hmod : (leadCount c - 1) * 6 % 2 ^ 32 = (leadCount c - 1) * 6 :=
          Nat.mod_eq_of_lt (by omega)
        rw [hmod]
        split_ifs with h1
        · have hlt := lead_value_lt (leadCount c) c (by omega) hr.2
          have hlt32 : (c &&& ((1 <<< (7 - leadCount c)) - 1)) <<< ((leadCount c - 1) * 6)
              < 2 ^ 32 := by omega
          refine ⟨?_, by simp⟩
          intro _
          simp only [Nat.mod_eq_of_lt hlt32]
          refine ⟨by omega, by omega, by omega, ?_, hlt⟩
          rw [Nat.shiftLeft_eq]
          exact Nat.mul_mod_left _ _
        · exact ⟨h, by simp⟩
    | UTF8DecodeMultibyte =>
      obtain ⟨h6, h30, hm6, hlow, hdc⟩ := h hst
      have hsub : (sb.decodeShift + 2 ^ 32 - 6) % 2 ^ 32 = sb.decodeShift - 6 := by omega
      by_cases hc : c &&& 0xc0 = 0x80
      · rw [overflow_multibyte_cont sb c hov hst hc, hsub]
        have hpay := payload_lt_31 c (sb.decodeShift - 6) (by omega)
        have hor : sb.decodedChar ||| (c &&& 0x3f) <<< (sb.decodeShift - 6) < 2 ^ 31 :=
          Nat.or_lt_two_pow hdc hpay
        have hor32 : sb.decodedChar ||| (c &&& 0x3f) <<< (sb.decodeShift - 6) < 2 ^ 32 := by
          omega
        simp only [Nat.mod_eq_of_lt hor32]
        split_ifs with h1
        · refine ⟨?_, ?_⟩
          · intro hcontra
            simp at hcontra
          · intro p hp
            simp at hp
            subst hp
            exact hor
        · refine ⟨?_, by simp⟩
          intro _
          dsimp only
          refine ⟨by omega, by omega, by omega, ?_, hor⟩
          apply or_mod_two_pow_eq_zero
          · exact mod_two_pow_of_le _ _ _ (by omega) hlow
          · rw [Nat.shiftLeft_eq]
            exact Nat.mul_mod_left _ _
      · rw [overflow_multibyte_bad sb c hov hst hc]
        refine ⟨?_, by simp⟩
        intro hcontra
        simp at hcontra

theorem feed_arithInv (bytes : List Nat) (sb : OverlayStreamBuf) (h : ArithInv sb) :
    ArithInv (sb.feed bytes).1 ∧ ∀ p ∈ (sb.feed bytes).2, p.arg < 2 ^ 31 := by
  induction bytes generalizing sb with
  | nil => exact ⟨by simpa [feed_nil] using h, by simp [feed_nil]⟩
  | cons c cs ih =>
    obtain ⟨h1, h2⟩ := overflow_arithInv sb c h
    obtain ⟨i1, i2⟩ := ih _ h1
    rw [feed_cons]
    refine ⟨i1, ?_⟩
    intro p hp
    rcases List.mem_append.mp hp with hp | hp
    · exact h2 p hp
    · exact i2 p hp

theorem sameBehaviour_refl (s : OverlayStreamBuf) : SameBehaviour s s :=
  ⟨rfl, rfl, fun _ => rfl⟩

theorem overflow_sameBehaviour (s1 s2 : OverlayStreamBuf) (c : Nat) (h : SameBehaviour s1 s2) :
    (s1.overflow c).2 = (s2.overflow c).2 ∧
    SameBehaviour (s1.overflow c).1 (s2.overflow c).1 := by
  obtain ⟨hov, hst, hmid⟩ := h
  cases hst1 : s1.decodeState with
  | UTF8DecodeMultibyte =>
    have := hmid hst1
    subst this
    exact ⟨rfl, sameBehaviour_refl _⟩
  | UTF8DecodeStart =>
    have hst2 : s2.decodeState = UTF8DecodeStart := by rw [← hst, hst1]
    cases hov1 : s1.overlay with
    | false =>
      have hov2 : s2.overlay = false := by rw [← hov, hov1]
      rw [overflow_no_overlay s1 c hov1, overflow_no_overlay s2 c hov2]
      exact ⟨rfl, hov, hst, fun hm => by rw [hst1] at hm; cases hm⟩
    | true =>
      have hov2 : s2.overlay = true := by rw [← hov, hov1]
      by_cases hc : c < 0x80
      · rw [overflow_ascii s1 c hov1 hst1 hc, overflow_ascii s2 c hov2 hst2 hc]
        exact ⟨rfl, hov, hst, fun hm => by rw [hst1] at hm; cases hm⟩
      · rw [overflow_start_high s1 c hov1 hst1 hc, overflow_start_high s2 c hov2 hst2 hc]
        split_ifs
        · refine ⟨rfl, hov, rfl, fun _ => ?_⟩
          simp only [hov1, hov2]
        · exact ⟨rfl, hov, hst, fun hm => by rw [hst1] at hm; cases hm⟩

theorem feed_sameBehaviour (bytes : List Nat) (s1 s2 : OverlayStreamBuf)
    (h : SameBehaviour s1 s2) :
    (s1.feed bytes).2 = (s2.feed bytes).2 ∧ SameBehaviour (s1.feed bytes).1 (s2.feed bytes).1 := by
  induction bytes generalizing s1 s2 with
  | nil => exact ⟨rfl, h⟩
  | cons c cs ih =>
    obtain ⟨h1, h2⟩ := overflow_sameBehaviour s1 s2 c h
    obtain ⟨i1, i2⟩ := ih _ _ h2
    rw [feed_cons, feed_cons]
    exact ⟨by rw [h1, i1], i2⟩

end arithLemmas

section contextLemmas

variable {R : Type}

theorem depth_glPushMatrix (g : GLState R) : g.glPushMatrix.depth = g.depth + 1 := rfl

theorem depth_glPopMatrix (g : GLState R) (h : 2 ≤ g.depth) :
    g.glPopMatrix.depth + 1 = g.depth := by
  obtain ⟨cur, saved, tex, calls⟩ := g
  cases saved with
  | nil => simp [GLState.depth] at h
  | cons m ms => simp [GLState.glPopMatrix, GLState.depth]

theorem depth_glTranslatef (g : GLState R) (x y z : R) :
    (g.glTranslatef x y z).depth = g.depth := rfl

theorem depth_bind (g : GLState R) (f : FontId) : (g.bind f).depth = g.depth := rfl

theorem depth_unbind (g : GLState R) (f : FontId) : (g.unbind f).depth = g.depth := rfl

theorem depth_render (g : GLState R) (f : FontId) (c : Nat) (x y : R) :
    (g.render f c x y).depth = g.depth := rfl

theorem depth_pos (g : GLState R) : 1 ≤ g.depth := by simp [GLState.depth]

end contextLemmas

section endTextLemmas

variable {R : Type} [Zero R]

theorem endText_none (ov : Overlay R) (hf : ov.font = none) : ov.endText = none := by
  unfold Overlay.endText
  split_ifs <;> simp [hf]

theorem endText_in_block (ov : Overlay R) (f : FontId) (hf : ov.font = some f)
    (ht : 0 < ov.textBlock) :
    ov.endText = some { ov with textBlock := ov.textBlock - 1, xoffset := 0,
                                gl := ov.gl.glPopMatrix.unbind f } := by
  simp [Overlay.endText, hf, ht]

theorem endText_outside_block (ov : Overlay R) (f : FontId) (hf : ov.font = some f)
    (ht : ov.textBlock = 0) :
    ov.endText = some { ov with gl := ov.gl.unbind f } := by
  simp [Overlay.endText, hf, ht]

end endTextLemmas

section cursorLemmas

variable {R : Type} [Zero R] [One R] [Add R] [Neg R]

theorem print_wchar_none (F : FontMetrics R) (ov : Overlay R) (c : Nat) (hf : ov.font = none) :
    ov.print_wchar F c = ov := by
  simp [Overlay.print_wchar, hf]

theorem print_wchar_newline_outside (F : FontMetrics R) (ov : Overlay R) (f : FontId)
    (hf : ov.font = some f) (ht : ov.textBlock = 0) :
    ov.print_wchar F 10 =
      if (!ov.useTexture || ov.fontChanged) = true then
        { ov with gl := ov.gl.bind f, useTexture := true, fontChanged := false }
      else ov := by
  simp only [Overlay.print_wchar, hf]
  split_ifs <;> simp_all

theorem print_wchar_newline_inside (F : FontMetrics R) (ov : Overlay R) (f : FontId)
    (hf : ov.font = some f) (ht : 0 < ov.textBlock) :
    ov.print_wchar F 10 =
      if (!ov.useTexture || ov.fontChanged) = true then
        { ov with
            gl := (((ov.gl.bind f).glPopMatrix).glTranslatef 0 (-(1 + F.getHeight f)) 0).glPushMatrix
            useTexture := true, fontChanged := false, xoffset := 0 }
      else
        { ov with
            gl := ((ov.gl.glPopMatrix).glTranslatef 0 (-(1 + F.getHeight f)) 0).glPushMatrix
            xoffset := 0 } := by
  simp only [Overlay.print_wchar, hf]
  split_ifs <;> simp_all

theorem print_wchar_glyph (F : FontMetrics R) (ov : Overlay R) (f : FontId) (c : Nat)
    (hf : ov.font = some f) (hc : c ≠ 10) :
    ov.print_wchar F c =
      if (!ov.useTexture || ov.fontChanged) = true then
        { ov with
            gl := (ov.gl.bind f).render f c ov.xoffset ov.yoffset
            useTexture := true, fontChanged := false
            xoffset := ov.xoffset + F.getAdvance f c }
      else
        { ov with
            gl := ov.gl.render f c ov.xoffset ov.yoffset
            xoffset := ov.xoffset + F.getAdvance f c } := by
  simp only [Overlay.print_wchar, hf]
  split_ifs <;> simp_all

theorem print_wchar_depth (F : FontMetrics R) (ov : Overlay R) (c d : Nat) (hd : 1 ≤ d)
    (hinv : ov.gl.depth = d + ov.textBlock) :
    (ov.print_wchar F c).gl.depth = d + (ov.print_wchar F c).textBlock := by
  cases hf : ov.font with
  | none => rw [print_wchar_none F ov c hf]; exact hinv
  | some f =>
    by_cases hc : c = 10
    · subst hc
      by_cases ht : 0 < ov.textBlock
      · have h2 : 2 ≤ ov.gl.depth := by omega
        have hpop := depth_glPopMatrix ov.gl h2
        have hpop2 := depth_glPopMatrix (ov.gl.bind f) h2
        have hbind : (ov.gl.bind f).depth = ov.gl.depth := rfl
        rw [print_wchar_newline_inside F ov f hf ht]
        split_ifs
        · simp only [depth_glPushMatrix, depth_glTranslatef]
          omega
        · simp only [depth_glPushMatrix, depth_glTranslatef]
          omega
      · rw [print_wchar_newline_outside F ov f hf (by omega)]
        split_ifs
        · simpa [depth_bind] using hinv
        · exact hinv
    · rw [print_wchar_glyph F ov f c hf hc]
      split_ifs
      · simpa [depth_bind, depth_render] using hinv
      · simpa [depth_render] using hinv

theorem step_depth (F : FontMetrics R) (ov ov1 : Overlay R) (op : CursorOp) (d : Nat)
    (hd : 1 ≤ d) (hinv : ov.gl.depth = d + ov.textBlock) (h : ov.step F op = some ov1) :
    ov1.gl.depth = d + ov1.textBlock := by
  cases op with
  | beginText =>
    simp only [Overlay.step, Option.some.injEq] at h
    subst h
    cases hf : ov.font <;>
      simp [Overlay.beginText, hf, GLState.depth, GLState.glPushMatrix, GLState.bind] at hinv ⊢ <;>
      omega
  | endText =>
    simp only [Overlay.step] at h
    cases hf : ov.font with
    | none => rw [endText_none ov hf] at h; cases h
    | some f =>
      by_cases ht : 0 < ov.textBlock
      · rw [endText_in_block ov f hf ht, Option.some.injEq] at h
        subst h
        have hpop := depth_glPopMatrix ov.gl (by omega)
        simp only [depth_unbind]
        omega
      · rw [endText_outside_block ov f hf (by omega), Option.some.injEq] at h
        subst h
        simpa [depth_unbind] using hinv
  | printChar c =>
    simp only [Overlay.step, Option.some.injEq] at h
    subst h
    exact print_wchar_depth F ov c d hd hinv
  | printWChar c =>
    simp only [Overlay.step, Option.some.injEq] at h
    subst h
    exact print_wchar_depth F ov c d hd hinv
  | setFont f =>
    simp only [Overlay.step, Option.some.injEq] at h
    subst h
    unfold Overlay.setFont
    split <;> simpa using hinv

theorem run_depth (F : FontMetrics R) (ops : List CursorOp) (ov ov1 : Overlay R) (d : Nat)
    (hd : 1 ≤ d) (hinv : ov.gl.depth = d + ov.textBlock) (h : ov.run F ops = some ov1) :
    ov1.gl.depth = d + ov1.textBlock := by
  induction ops generalizing ov with
  | nil =>
    simp only [Overlay.run, Option.some.injEq] at h
    subst h
    exact hinv
  | cons op ops ih =>
    simp only [Overlay.run] at h
    cases hs : ov.step F op with
    | none => simp [hs] at h
    | some ov2 =>
      simp only [hs] at h
      exact ih ov2 (step_depth F ov ov2 op d hd hinv hs) h

theorem print_wchar_font (F : FontMetrics R) (ov : Overlay R) (c : Nat) :
    (ov.print_wchar F c).font = ov.font := by
  cases hf : ov.font with
  | none => rw [print_wchar_none F ov c hf]; exact hf
  | some f =>
    simp only [Overlay.print_wchar, hf]
    split_ifs <;> simp [hf]

theorem step_font (F : FontMetrics R) (ov : Overlay R) (op : CursorOp) (hf : ov.font.isSome) :
    ∃ ov1, ov.step F op = some ov1 ∧ ov1.font.isSome := by
  obtain ⟨f, hf⟩ := Option.isSome_iff_exists.mp hf
  cases op with
  | beginText => exact ⟨_, rfl, by simp [Overlay.beginText, hf]⟩
  | endText =>
    by_cases ht : 0 < ov.textBlock
    · exact ⟨_, endText_in_block ov f hf ht, by simp [hf]⟩
    · exact ⟨_, endText_outside_block ov f hf (by omega), by simp [hf]⟩
  | printChar c => exact ⟨_, rfl, by rw [print_char_eq_print_wchar, print_wchar_font, hf]; rfl⟩
  | printWChar c => exact ⟨_, rfl, by rw [print_wchar_font, hf]; rfl⟩
  | setFont g =>
    refine ⟨_, rfl, ?_⟩
    unfold Overlay.setFont
    split <;> simp [hf]

theorem run_font (F : FontMetrics R) (ops : List CursorOp) (ov : Overlay R)
    (hf : ov.font.isSome) : (ov.run F ops).isSome := by
  induction ops generalizing ov with
  | nil => simp [Overlay.run]
  | cons op ops ih =>
    obtain ⟨ov1, h1, h2⟩ := step_font F ov op hf
    simp only [Overlay.run, h1]
    exact ih ov1 h2

theorem print_wchar_xoffset_foldl (F : FontMetrics R) (cs : List Nat) (ov : Overlay R)
    (f : FontId) (hf : ov.font = some f) (hcs : ∀ c ∈ cs, c ≠ 10) :
    (cs.foldl (fun o c => o.print_wchar F c) ov).xoffset
      = cs.foldl (fun x c => x + F.getAdvance f c) ov.xoffset := by
  induction cs generalizing ov with
  | nil => rfl
  | cons c cs ih =>
    simp only [List.foldl_cons]
    rw [ih (ov.print_wchar F c) (by rw [print_wchar_font, hf])
      (fun x hx => hcs x (List.mem_cons_of_mem _ hx))]
    congr 1
    rw [print_wchar_glyph F ov f c hf (hcs c (by simp))]
    split_ifs <;> rfl

theorem printLoop_invalid (decode : List Nat → Nat → Nat → Nat → Bool × Nat)
    (F : FontMetrics R) (s : List Nat) (length fuel i : Nat) (ov : Overlay R) :
    Overlay.printLoop decode F s length fuel i false ov = some ov := by
  cases fuel <;> simp [Overlay.printLoop]

theorem printLoop_bad_step (decode : List Nat → Nat → Nat → Nat → Bool × Nat)
    (F : FontMetrics R) (s : List Nat) (length fuel i : Nat) (ov : Overlay R)
    (hi : i < length) (hbad : (decode s i length 0).1 = false) :
    Overlay.printLoop decode F s length (fuel + 1) i true ov
      = some (ov.print_wchar F (decode s i length 0).2) := by
  rw [Overlay.printLoop]
  simp only [hi, true_and, if_true, hbad]
  exact printLoop_invalid decode F s length fuel _ _

theorem UTF8Decode_bad_lead (s : List Nat) (pos length ch b : Nat) (rest : List Nat)
    (hdrop : s.drop pos = b :: rest) (h80 : ¬ b < 0x80) (hcount : leadCount b = 1) :
    UTF8Decode s pos length ch = (false, ch) := by
  unfold UTF8Decode
  rw [hdrop]
  simp only [h80, if_false]
  have hc : (if b &&& 0xe0 = 0xc0 then 2
      else if b &&& 0xf0 = 0xe0 then 3
      else if b &&& 0xf8 = 0xf0 then 4
      else if b &&& 0xfc = 0xf8 then 5
      else if b &&& 0xfe = 0xfc then 6
      else 1) = 1 := hcount
  simp [hc]

theorem utf8EncodeAll_length_ge (cps : List Nat) : cps.length ≤ (utf8EncodeAll cps).length := by
  induction cps with
  | nil => simp [utf8EncodeAll]
  | cons c cs ih =>
    have := utf8Encode_length_pos c
    simp only [utf8EncodeAll, List.length_append, List.length_cons]
    omega

/-- The loop of the string print run over the encoded characters `cps` that
sit between `pre` and `post` in the buffer: one iteration each, printing them
in order. -/
theorem printLoop_encoded_prefix (F : FontMetrics R) (cps : List Nat) (pre post : List Nat)
    (ov : Overlay R) (fuel : Nat) (hcp : ∀ c ∈ cps, c ≤ 0x10FFFF) :
    Overlay.printLoop UTF8Decode F (pre ++ (utf8EncodeAll cps ++ post))
        (pre.length + ((utf8EncodeAll cps).length + post.length)) (cps.length + fuel)
        pre.length true ov
      = Overlay.printLoop UTF8Decode F (pre ++ (utf8EncodeAll cps ++ post))
        (pre.length + ((utf8EncodeAll cps).length + post.length)) fuel
        (pre.length + (utf8EncodeAll cps).length) true
        (cps.foldl (fun o c => o.print_wchar F c) ov) := by
  induction cps generalizing pre ov with
  | nil => simp [utf8EncodeAll]
  | cons c cs ih =>
    have hc : c ≤ 0x10FFFF := hcp c (by simp)
    have hpos := utf8Encode_length_pos c
    have hfuel : (c :: cs).length + fuel = (cs.length + fuel) + 1 := by
      simp only [List.length_cons]; omega
    simp only [utf8EncodeAll, List.length_append, List.append_assoc, List.foldl_cons]
    rw [hfuel, Overlay.printLoop]
    have hlt : pre.length <
        pre.length + ((utf8Encode c).length + (utf8EncodeAll cs).length + post.length) := by
      omega
    simp only [hlt, true_and, if_true]
    have hdec := UTF8Decode_utf8Encode pre (utf8EncodeAll cs ++ post) c 0 hc
    simp only [List.length_append, ← Nat.add_assoc] at hdec
    simp only [← Nat.add_assoc] at hlt ⊢
    rw [hdec]
    simp only [UTF8EncodedSize_utf8Encode c hc]
    have := ih (pre ++ utf8Encode c) (ov.print_wchar F c)
      (fun x hx => hcp x (List.mem_cons_of_mem _ hx))
    simp only [List.length_append, List.append_assoc, ← Nat.add_assoc] at this
    exact this

theorem print_str_bad_lead (F : FontMetrics R) (ov : Overlay R) (cps : List Nat) (b : Nat)
    (rest : List Nat) (hcp : ∀ c ∈ cps, c ≤ 0x10FFFF)
    (hb : (0x80 ≤ b ∧ b ≤ 0xBF) ∨ (0xFE ≤ b ∧ b ≤ 0xFF)) :
    ov.print_str F (utf8EncodeAll cps ++ b :: rest)
      = some ((cps.foldl (fun o c => o.print_wchar F c) ov).print_wchar F 0) := by
  have hcount : leadCount b = 1 := ((leadCount_lt_256 b (by omega)).2.2.2.2.2).2 (by omega)
  have hge := utf8EncodeAll_length_ge cps
  unfold Overlay.print_str
  obtain ⟨k, hk⟩ : ∃ k, (utf8EncodeAll cps ++ b :: rest).length = cps.length + (k + 1) :=
    ⟨(utf8EncodeAll cps).length - cps.length + rest.length, by
      simp only [List.length_append, List.length_cons]; omega⟩
  have hpre := printLoop_encoded_prefix F cps [] (b :: rest) ov (k + 1) hcp
  simp only [List.nil_append, List.length_nil, Nat.zero_add, List.length_cons] at hpre
  have hlen : (utf8EncodeAll cps ++ b :: rest).length
      = (utf8EncodeAll cps).length + (rest.length + 1) := by
    simp only [List.length_append, List.length_cons]
  rw [hlen] at hk ⊢
  have hfuel : Overlay.printLoop UTF8Decode F (utf8EncodeAll cps ++ b :: rest)
        ((utf8EncodeAll cps).length + (rest.length + 1))
        ((utf8EncodeAll cps).length + (rest.length + 1)) 0 true ov
      = Overlay.printLoop UTF8Decode F (utf8EncodeAll cps ++ b :: rest)
        ((utf8EncodeAll cps).length + (rest.length + 1)) (cps.length + (k + 1)) 0 true ov := by
    rw [hk]
  have hdec : UTF8Decode (utf8EncodeAll cps ++ b :: rest) (utf8EncodeAll cps).length
      ((utf8EncodeAll cps).length + (rest.length + 1)) 0 = (false, 0) :=
    UTF8Decode_bad_lead _ _ _ _ b rest (by simp) (by omega) hcount
  rw [hfuel, hpre, printLoop_bad_step UTF8Decode F _ _ k _ _ (by omega) (by rw [hdec]), hdec]

end cursorLemmas

/-- C11: starting from a cursor state with `textBlock = 0` and a modelview
stack of depth `d`, after every finite sequence of `beginText()`, `endText()`
(balanced or not), single-character prints (newline included) and `setFont`
with a non-null font that runs to its end, `textBlock` is non-negative and the
stack depth is `d + textBlock`; with a font set at the start every such
sequence runs to its end. -/
theorem depth_tracks_textBlock {R : Type} [Zero R] [One R] [Add R] [Neg R]
    (F : FontMetrics R) (ov : Overlay R) (ops : List CursorOp) (hblock : ov.textBlock = 0) :
    (∀ ov1, ov.run F ops = some ov1 →
      0 ≤ ov1.textBlock ∧ ov1.gl.depth = ov.gl.depth + ov1.textBlock) ∧
    (ov.font.isSome → (ov.run F ops).isSome) := by
  refine ⟨fun ov1 h => ⟨Nat.zero_le _, ?_⟩, run_font F ops ov⟩
  exact run_depth F ops ov ov1 ov.gl.depth (depth_pos _) (by simp [hblock]) h

/-- Witness for C11: an unbalanced `endText()`, a nested block with a newline
and a glyph, on the demo overlay. -/
theorem depth_tracks_textBlock_witness :
    ∃ ov1, demoOverlay.run demoMetrics
        [.endText, .beginText, .beginText, .printWChar 65, .printChar 10, .setFont 2, .endText]
        = some ov1 ∧ ov1.textBlock = 1 ∧ ov1.gl.depth = 2 :=
  have h := depth_tracks_textBlock demoMetrics demoOverlay
    [.endText, .beginText, .beginText, .printWChar 65, .printChar 10, .setFont 2, .endText] rfl
  ⟨_, rfl, rfl, (h.1 _ rfl).2⟩

/-- C13: with no font set, `print(char)` and `print(wchar_t)` of any code
point (newline included) return the cursor state as it was: offsets,
`textBlock`, texture flags, modelview stack and call log are unchanged and no
glyph is rendered. Hence, in every state, a print that makes any call at all
(a glyph render in particular) has a non-null font. -/
theorem print_without_font_is_noop {R : Type} [Zero R] [One R] [Add R] [Neg R]
    (F : FontMetrics R) (ov : Overlay R) (c : Nat) (hfont : ov.font = none) :
    ov.print_char F c = ov ∧ ov.print_wchar F c = ov ∧
    (∀ (ov2 : Overlay R) (c2 : Nat),
      ((ov2.print_wchar F c2).gl.calls ≠ ov2.gl.calls ∨
        (ov2.print_char F c2).gl.calls ≠ ov2.gl.calls) → ov2.font.isSome = true) := by
  refine ⟨print_wchar_none F ov c hfont, print_wchar_none F ov c hfont, ?_⟩
  intro ov2 c2 h
  cases hf : ov2.font with
  | some f => rfl
  | none =>
    rw [print_char_eq_print_wchar, print_wchar_none F ov2 c2 hf] at h
    simp at h

/-- Witness for C13: the demo overlay with its font taken away, printing `A`. -/
theorem print_without_font_is_noop_witness :
    Overlay.print_wchar demoMetrics { demoOverlay with font := none } 65
      = { demoOverlay with font := none } :=
  (print_without_font_is_noop demoMetrics { demoOverlay with font := none } 65 rfl).2.1

/-- C14: with `textBlock = 0` and a font set, `endText()` returns, makes no
`glPopMatrix`, leaves `xoffset`, `yoffset` and the modelview stack unchanged,
leaves `textBlock` at 0, and still calls the font's `unbind`: that is the one
call it makes. -/
theorem unbalanced_endText {R : Type} [Zero R]
    (ov : Overlay R) (f : FontId) (hfont : ov.font = some f) (hblock : ov.textBlock = 0) :
    ∃ ov1 : Overlay R,
      ov.endText = some ov1 ∧
      ov1.xoffset = ov.xoffset ∧ ov1.yoffset = ov.yoffset ∧ ov1.textBlock = 0 ∧
      ov1.gl.current = ov.gl.current ∧ ov1.gl.saved = ov.gl.saved ∧
      ov1.gl.calls = ov.gl.calls ++ [GLCall.unbind f] := by
  refine ⟨_, endText_outside_block ov f hfont hblock, rfl, rfl, hblock, rfl, rfl, rfl⟩

/-- Witness for C14: the demo overlay, which is outside any block. -/
theorem unbalanced_endText_witness :
    ∃ ov1 : Overlay Int,
      demoOverlay.endText = some ov1 ∧ ov1.textBlock = 0 ∧
      ov1.gl.calls = [GLCall.unbind 1] :=
  (unbalanced_endText demoOverlay 1 rfl rfl).elim
    fun ov1 h => ⟨ov1, h.1, h.2.2.2.1, h.2.2.2.2.2.2⟩

/-- C15 fails on the code: with no font set `endText()` calls
`font->unbind()` through the null pointer, in a block or outside one. -/
theorem endText_null_font_fails :
    Overlay.endText { demoOverlay with font := none } = none ∧
    Overlay.endText { demoOverlay with font := none, textBlock := 1 } = none := by
  decide

/-- C17: with a font set and `c` not the newline, `print(c)` renders exactly
one glyph, for `c`, at the pen position held before the call (after binding
the font if the texture flags ask for it), then adds `font->getAdvance(c)` to
`xoffset`, and leaves `yoffset`, `textBlock` and the modelview stack
unchanged; both overloads do the same. After printing `c1..ck`, none a
newline, `xoffset` is the old value with their advances added in that
order. -/
theorem glyph_print_advances_pen {R : Type} [Zero R] [One R] [Add R] [Neg R]
    (F : FontMetrics R) (ov : Overlay R) (f : FontId) (c : Nat) (cs : List Nat)
    (hfont : ov.font = some f) (hc : c ≠ 10) (hcs : ∀ x ∈ cs, x ≠ 10) :
    ((ov.print_wchar F c).gl.calls
        = ov.gl.calls ++ [GLCall.render f c ov.xoffset ov.yoffset] ∨
      (ov.print_wchar F c).gl.calls
        = ov.gl.calls ++ [GLCall.bind f, GLCall.render f c ov.xoffset ov.yoffset]) ∧
    (ov.print_wchar F c).xoffset = ov.xoffset + F.getAdvance f c ∧
    (ov.print_wchar F c).yoffset = ov.yoffset ∧
    (ov.print_wchar F c).textBlock = ov.textBlock ∧
    (ov.print_wchar F c).gl.current = ov.gl.current ∧
    (ov.print_wchar F c).gl.saved = ov.gl.saved ∧
    ov.print_char F c = ov.print_wchar F c ∧
    (cs.foldl (fun o x => o.print_wchar F x) ov).xoffset
      = cs.foldl (fun x k => x + F.getAdvance f k) ov.xoffset := by
  refine ⟨?_, ?_, ?_, ?_, ?_, ?_, rfl, print_wchar_xoffset_foldl F cs ov f hfont hcs⟩ <;>
    rw [print_wchar_glyph F ov f c hfont hc] <;>
    split_ifs <;>
    simp [GLState.bind, GLState.render]

/-- Witness for C17: the glyphs `A`, `B`, `C` on the demo overlay, each 7
wide. -/
theorem glyph_print_advances_pen_witness :
    (demoOverlay.print_wchar demoMetrics 65).xoffset = 3 + 7 ∧
    ([66, 67].foldl (fun o x => o.print_wchar demoMetrics x) demoOverlay).xoffset
      = 3 + 7 + 7 :=
  have h := glyph_print_advances_pen demoMetrics demoOverlay 1 65 [66, 67] rfl
    (by decide) (by decide)
  ⟨h.2.1, h.2.2.2.2.2.2.2⟩

/-- C19: for `c` in `0 .. 127` the overloads `print(char)` and
`print(wchar_t)` lead to the same cursor state, modelview stack, bound
texture and call log (so the same matrix operations and the same rendered
glyph). -/
theorem print_overloads_agree {R : Type} [Zero R] [One R] [Add R] [Neg R]
    (F : FontMetrics R) (ov : Overlay R) (c : Nat) (_hc : c < 128) :
    ov.print_char F c = ov.print_wchar F c ∧
    ov.dispatch F (.char c) = ov.dispatch F (.wchar c) :=
  ⟨rfl, rfl⟩

/-- Witness for C19: the character `A` on the demo overlay. -/
theorem print_overloads_agree_witness :
    demoOverlay.print_char demoMetrics 65 = demoOverlay.print_wchar demoMetrics 65 :=
  (print_overloads_agree demoMetrics demoOverlay 65 (by decide)).1

/-- C18: in every state reached from `UTF8DecodeStart` by feeding any finite
sequence of bytes, if the state is `UTF8DecodeMultibyte` then
`6 <= decodeShift <= 30` (so `decodeShift -= 6` does not wrap), the low
`decodeShift` bits of `decodedChar` are zero, and `decodedChar < 2 ^ 31`;
every code point printed on the way is below `2 ^ 31`. -/
theorem decoder_arithmetic_in_range (sb : OverlayStreamBuf) (bytes : List Nat)
    (hst : sb.decodeState = UTF8DecodeStart) :
    ((sb.feed bytes).1.decodeState = UTF8DecodeMultibyte →
      6 ≤ (sb.feed bytes).1.decodeShift ∧ (sb.feed bytes).1.decodeShift ≤ 30 ∧
      (sb.feed bytes).1.decodedChar % 2 ^ (sb.feed bytes).1.decodeShift = 0 ∧
      (sb.feed bytes).1.decodedChar < 2 ^ 31) ∧
    (∀ p ∈ (sb.feed bytes).2, p.arg < 2 ^ 31) := by
  have hinv : ArithInv sb := by
    intro h
    rw [hst] at h
    cases h
  obtain ⟨h1, h2⟩ := feed_arithInv bytes sb hinv
  refine ⟨fun hm => ?_, h2⟩
  obtain ⟨a, b, _, c, d⟩ := h1 hm
  exact ⟨a, b, c, d⟩

/-- Witness for C18: the first two bytes of a six-byte sequence, then a
complete two-byte sequence after a stray byte. -/
theorem decoder_arithmetic_in_range_witness :
    (OverlayStreamBuf.start.feed [0xFD, 0xBF]).1.decodedChar < 2 ^ 31 ∧
    ∀ p ∈ (OverlayStreamBuf.start.feed [0xFD, 0xBF, 0x41, 0xC3, 0xA9]).2, p.arg < 2 ^ 31 :=
  ⟨((decoder_arithmetic_in_range OverlayStreamBuf.start [0xFD, 0xBF] rfl).1 (by decide)).2.2.2,
   (decoder_arithmetic_in_range OverlayStreamBuf.start [0xFD, 0xBF, 0x41, 0xC3, 0xA9] rfl).2⟩

/-- C20: two decoder states that are both in `UTF8DecodeStart`, on the same
overlay pointer, and differ arbitrarily in `decodedChar` and `decodeShift`,
make the same calls of `overlay->print`, with the same arguments, on every
finite byte sequence, and end in the same `decodeState`. -/
theorem stale_accumulator_never_leaks (s1 s2 : OverlayStreamBuf) (bytes : List Nat)
    (hov : s1.overlay = s2.overlay) (h1 : s1.decodeState = UTF8DecodeStart)
    (h2 : s2.decodeState = UTF8DecodeStart) :
    (s1.feed bytes).2 = (s2.feed bytes).2 ∧
    (s1.feed bytes).1.decodeState = (s2.feed bytes).1.decodeState := by
  have hsim : SameBehaviour s1 s2 :=
    ⟨hov, by rw [h1, h2], fun hm => by rw [h1] at hm; cases hm⟩
  obtain ⟨e1, e2⟩ := feed_sameBehaviour bytes s1 s2 hsim
  exact ⟨e1, e2.2.1⟩

/-- Witness for C20: a clean start state and one left behind by the abandoned
sequence `0xE2, 0x41`, both fed the encoding of U+20AC and then `A`. -/
theorem stale_accumulator_never_leaks_witness :
    (OverlayStreamBuf.start.feed [0xE2, 0x82, 0xAC, 0x41]).2
      = (OverlayStreamBuf.feed ⟨true, UTF8DecodeStart, 0x2000, 12⟩ [0xE2, 0x82, 0xAC, 0x41]).2 :=
  (stale_accumulator_never_leaks OverlayStreamBuf.start ⟨true, UTF8DecodeStart, 0x2000, 12⟩
    [0xE2, 0x82, 0xAC, 0x41] rfl rfl rfl).1

/-- C12, as stated, fails: on the bytes `0xFF, 'A'` the batch decoder
reports `0xFF` by returning false, and the string print then renders the
character 0 and stops; `A` is never printed. -/
theorem malformed_byte_not_skipped_counterexample :
    UTF8Decode [0xFF, 0x41] 0 2 0 = (false, 0) ∧
    (demoOverlay.print_str demoMetrics [0xFF, 0x41]).map (fun o => renderedChars o.gl.calls)
      = some [0] ∧
    (demoOverlay.print_str demoMetrics [0xFF, 0x41]).map (fun o => renderedChars o.gl.calls)
      ≠ some [0x41] := by
  decide

/-- C12, amended: `Overlay::print(const char*)` does not skip a malformed
byte. Whatever batch decoder is used, the iteration in which it returns false
is the last one of the loop, so nothing after the malformed byte is decoded or
printed; with the decoder of the model, on valid characters followed by an
invalid lead byte and any further bytes, the valid characters before that
byte are printed in order and the loop stops there. -/
theorem string_print_stops_at_malformed {R : Type} [Zero R] [One R] [Add R] [Neg R]
    (decode : List Nat → Nat → Nat → Nat → Bool × Nat) (F : FontMetrics R)
    (s : List Nat) (length fuel i : Nat) (ov : Overlay R)
    (hi : i < length) (hbad : (decode s i length 0).1 = false) :
    Overlay.printLoop decode F s length (fuel + 1) i true ov
      = some (ov.print_wchar F (decode s i length 0).2) ∧
    (∀ (cps : List Nat) (b : Nat) (rest : List Nat),
      (∀ c ∈ cps, c ≤ 0x10FFFF) → ((0x80 ≤ b ∧ b ≤ 0xBF) ∨ (0xFE ≤ b ∧ b ≤ 0xFF)) →
      ov.print_str F (utf8EncodeAll cps ++ b :: rest)
        = some ((cps.foldl (fun o c => o.print_wchar F c) ov).print_wchar F 0)) :=
  ⟨printLoop_bad_step decode F s length fuel i ov hi hbad,
   fun cps b rest hcp hb => print_str_bad_lead F ov cps b rest hcp hb⟩

/-- Witness for C12 (amended): the bytes `A`, `0xFF`, `B` on the demo
overlay; the loop is at the byte `0xFF`. -/
theorem string_print_stops_at_malformed_witness :
    Overlay.printLoop UTF8Decode demoMetrics [0x41, 0xFF, 0x42] 3 2 1 true demoOverlay
      = some (demoOverlay.print_wchar demoMetrics 0) ∧
    demoOverlay.print_str demoMetrics [0x41, 0xFF, 0x42]
      = some ((demoOverlay.print_wchar demoMetrics 0x41).print_wchar demoMetrics 0) :=
  have h := string_print_stops_at_malformed UTF8Decode demoMetrics [0x41, 0xFF, 0x42] 3 1 1
    demoOverlay (by decide) (by decide)
  ⟨h.1, h.2 [0x41] 0xFF [0x42] (by decide) (by decide)⟩

/-- C16 fails on the code: after `begin()`, `setFont(f)`, `beginText()` and
`endText()` no texture is bound (`endText` has called `font->unbind()`), yet
`useTexture` is still set and `fontChanged` is clear; the following
`print('A')` therefore does not bind the font and renders its glyph with no
texture bound. -/
theorem texture_flags_stale_after_endText {R : Type} [Zero R] [One R] [Add R] [Neg R]
    (F : FontMetrics R) (ov : Overlay R) (eighth : R) (f : FontId) :
    ∃ s : Overlay R,
      (((ov.begin eighth).setFont (some f)).beginText).endText = some s ∧
      s.font = some f ∧ s.useTexture = true ∧ s.fontChanged = false ∧
      s.gl.texture = none ∧ ¬ FlagsTrackBinding s ∧
      (s.print_wchar F 65).gl.calls = s.gl.calls ++ [GLCall.render f 65 s.xoffset s.yoffset] ∧
      (s.print_wchar F 65).gl.texture = none := by
  have hfont : ((ov.begin eighth).setFont (some f)).font = some f := by
    unfold Overlay.setFont
    split_ifs with h
    · rfl
    · simpa [eq_comm] using h
  have hbt : ((ov.begin eighth).setFont (some f)).beginText.font = some f := by
    simp [Overlay.beginText, hfont]
  have hpos : 0 < ((ov.begin eighth).setFont (some f)).beginText.textBlock := by
    simp [Overlay.beginText, hfont]
  obtain ⟨s, hs, h1, h2, h3, h4⟩ : ∃ s : Overlay R,
      (((ov.begin eighth).setFont (some f)).beginText).endText = some s ∧
      s.font = some f ∧ s.useTexture = true ∧ s.fontChanged = false ∧ s.gl.texture = none :=
    ⟨_, endText_in_block _ f hbt hpos, hbt, by simp [Overlay.beginText, hfont],
      by simp [Overlay.beginText, hfont], rfl⟩
  refine ⟨s, hs, h1, h2, h3, h4, ?_, ?_, ?_⟩
  · intro h
    have := (h h2 h3).2
    rw [h1, h4] at this
    cases this
  · rw [print_wchar_glyph F s f 65 h1 (by decide)]
    simp [h2, h3, GLState.render]
  · rw [print_wchar_glyph F s f 65 h1 (by decide)]
    simp [h2, h3, h4, GLState.render]

end Celestia
